import Mathlib

/-!
Verification development for the `org_research_agent` repository.

The definitions below are a shallow embedding of the Python sources:
* `market_stream/sub_agents/target_org_research/target_research.py`
  (`collect_research_sources_callback`, `citation_replacement_callback`,
  `SalesEscalationChecker._run_async_impl`)
* `market_stream/tools/mongoupload.py` (`update_project_report`)

Modelling conventions:
* Python dicts are insertion-ordered association lists; `m[k] = v`
  overwrites in place when the key exists and appends otherwise
  (`dictSet`), and reads are `List.lookup`.
* Python floats that are only stored and copied (grounding confidence
  scores) are modelled as rationals; the literal `0.5` becomes `1/2`.
* `str(n)` for a Python non-negative int is `Nat.repr`.
* Regular-expression substitution is modelled by an explicit
  left-to-right scanner over the character list; the two patterns used
  by the code are deterministic (no character class overlaps two
  adjacent quantified positions), so greedy scanning with maximal munch
  is exact.
-/

namespace OrgResearch

/-! ### Python-ish values for the source ledger -/

/-- One entry of a source's `supported_claims` list, as appended by
`collect_research_sources_callback`. -/
structure SupportedClaim where
  text_segment : String
  confidence : ℚ
deriving DecidableEq, Repr

/-- A value stored in a source record: the code only ever stores strings
and the list of supported claims. -/
inductive SVal where
  | str : String → SVal
  | claims : List SupportedClaim → SVal
deriving DecidableEq, Repr

/-- A source record is the Python dict literal built at
`target_research.py:100-106`: an insertion-ordered association list. -/
abbrev SourceRec := List (String × SVal)

/-- Python dict assignment `m[k] = v`: overwrite in place when the key
exists, append otherwise. -/
def dictSet {β : Type} (m : List (String × β)) (k : String) (v : β) :
    List (String × β) :=
  if (m.lookup k).isSome then
    m.map (fun kv => if kv.1 = k then (k, v) else kv)
  else m ++ [(k, v)]

/-- `sources[short_id] = {"short_id": ..., "title": ..., "url": ...,
"domain": ..., "supported_claims": []}` (target_research.py:100-106). -/
def mkSourceRec (short_id title url domain : String) : SourceRec :=
  [("short_id", SVal.str short_id),
   ("title", SVal.str title),
   ("url", SVal.str url),
   ("domain", SVal.str domain),
   ("supported_claims", SVal.claims [])]

/-- `rec["supported_claims"].append c` on a source record. -/
def recAppendClaim (rec : SourceRec) (c : SupportedClaim) : SourceRec :=
  rec.map fun kv =>
    if kv.1 = "supported_claims" then
      match kv.2 with
      | SVal.claims cs => (kv.1, SVal.claims (cs ++ [c]))
      | v => (kv.1, v)
    else kv

/-- `sources[short_id]["supported_claims"].append(c)`
(target_research.py:120-125). -/
def sourcesAppendClaim (s : List (String × SourceRec)) (short_id : String)
    (c : SupportedClaim) : List (String × SourceRec) :=
  s.map fun kv => if kv.1 = short_id then (kv.1, recAppendClaim kv.2 c) else kv

/-- String field of a record (`rec[k]` / `rec.get(k, "")`), empty when
absent or not a string. -/
def recGetStr (k : String) (rec : SourceRec) : String :=
  match rec.lookup k with
  | some (SVal.str s) => s
  | _ => ""

/-- The `supported_claims` list of a record, `[]` when absent. -/
def recClaims (rec : SourceRec) : List SupportedClaim :=
  match rec.lookup "supported_claims" with
  | some (SVal.claims cs) => cs
  | _ => []

/-! ### Grounding-metadata input shape (google.genai types, as read by the
callback) -/

/-- `chunk.web`: uri, title, domain. -/
structure WebChunk where
  uri : String
  title : String
  domain : String
deriving DecidableEq, Repr

/-- A grounding chunk; `web` may be absent (`if not chunk.web: continue`). -/
structure GroundingChunk where
  web : Option WebChunk
deriving DecidableEq, Repr

/-- `support.segment` with its `text`. -/
structure SupportSegment where
  text : String
deriving DecidableEq, Repr

/-- A grounding support record. `confidence_scores` and
`grounding_chunk_indices` may be `None` (the code guards with `or []`).
Chunk indices come from `enumerate`, hence non-negative. -/
structure GroundingSupport where
  confidence_scores : Option (List ℚ)
  grounding_chunk_indices : Option (List Nat)
  segment : Option SupportSegment
deriving DecidableEq, Repr

/-- `event.grounding_metadata`. An absent/`None` supports attribute and an
empty list behave identically in the guard
`if event.grounding_metadata.grounding_supports:`, so supports are
modelled as a plain list. -/
structure GroundingMetadata where
  grounding_chunks : List GroundingChunk
  grounding_supports : List GroundingSupport
deriving DecidableEq, Repr

/-- A session event, as inspected by the callback. -/
structure SessionEvent where
  grounding_metadata : Option GroundingMetadata
deriving DecidableEq, Repr

/-! ### collect_research_sources_callback (target_research.py:78-127) -/

/-- The state the callback reads and writes:
`callback_context.state["url_to_short_id"]` and
`callback_context.state["sources"]`. -/
structure LedgerState where
  url_to_short_id : List (String × String)
  sources : List (String × SourceRec)
deriving DecidableEq, Repr

/-- Accumulator of the event loop: the two dicts plus `id_counter`. -/
abbrev IngestAcc := List (String × String) × List (String × SourceRec) × Nat

/-- Body of `for idx, chunk in enumerate(event.grounding_metadata
.grounding_chunks)` (target_research.py:88-108), also building
`chunks_info`. -/
def processChunk (acc : IngestAcc × List (Nat × String))
    (ic : Nat × GroundingChunk) : IngestAcc × List (Nat × String) :=
  let u := acc.1.1
  let s := acc.1.2.1
  let c := acc.1.2.2
  let ci := acc.2
  match ic.2.web with
  | none => acc
  | some web =>
    let url := web.uri
    let title := if web.title ≠ web.domain then web.title else web.domain
    match u.lookup url with
    | some short_id => ((u, s, c), ci ++ [(ic.1, short_id)])
    | none =>
      let short_id := "src-" ++ Nat.repr c
      ((u ++ [(url, short_id)],
        dictSet s short_id (mkSourceRec short_id title url web.domain),
        c + 1),
       ci ++ [(ic.1, short_id)])

/-- Body of the support loop (target_research.py:110-125) for one
`support` record. -/
def processSupport (ci : List (Nat × String))
    (s : List (String × SourceRec)) (support : GroundingSupport) :
    List (String × SourceRec) :=
  let confidence_scores := support.confidence_scores.getD []
  let chunk_indices := support.grounding_chunk_indices.getD []
  (chunk_indices.enum).foldl
    (fun s p =>
      match ci.lookup p.2 with
      | none => s
      | some short_id =>
        let confidence := confidence_scores.getD p.1 (1 / 2 : ℚ)
        let text_segment := (support.segment.map SupportSegment.text).getD ""
        sourcesAppendClaim s short_id ⟨text_segment, confidence⟩)
    s

/-- One iteration of `for event in session.events`
(target_research.py:84-125). -/
def processEvent (acc : IngestAcc) (event : SessionEvent) : IngestAcc :=
  match event.grounding_metadata with
  | none => acc
  | some md =>
    if md.grounding_chunks.isEmpty then acc
    else
      let step := (md.grounding_chunks.enum).foldl processChunk (acc, [])
      let u := step.1.1
      let s := step.1.2.1
      let c := step.1.2.2
      let chunks_info := step.2
      let s' :=
        if md.grounding_supports.isEmpty then s
        else md.grounding_supports.foldl (processSupport chunks_info) s
      (u, s', c)

/-- `collect_research_sources_callback` (target_research.py:78-127). -/
def collect_research_sources_callback (events : List SessionEvent)
    (st : LedgerState) : LedgerState :=
  let url_to_short_id := st.url_to_short_id
  let sources := st.sources
  let id_counter := url_to_short_id.length + 1
  let res := events.foldl processEvent (url_to_short_id, sources, id_counter)
  ⟨res.1, res.2.1⟩

/-! ### citation_replacement_callback (target_research.py:130-172) -/

/-- Python's `\s` on the inputs at hand (ASCII whitespace). -/
def pyWs (c : Char) : Bool :=
  c = ' ' || c = '\t' || c = '\n' || c = '\r' ||
  c = Char.ofNat 11 || c = Char.ofNat 12

/-- The punctuation class `[.,;:]` of the cleanup pattern. -/
def punctCCS (c : Char) : Bool :=
  c = '.' || c = ',' || c = ';' || c = ':'

/-- `re.sub(r"\s+([.,;:])", r"\1", s)` (target_research.py:156), scanned
left to right: a maximal whitespace run directly followed by one of the
punctuation characters is dropped. `buf` holds the pending (reversed)
whitespace run. -/
def wsCleanAux (buf : List Char) : List Char → List Char
  | [] => buf.reverse
  | c :: cs =>
    if pyWs c then wsCleanAux (c :: buf) cs
    else if punctCCS c then c :: wsCleanAux [] cs
    else buf.reverse ++ c :: wsCleanAux [] cs

/-- Drop an expected literal prefix, or fail. -/
def dropLit : List Char → List Char → Option (List Char)
  | [], l => some l
  | _ :: _, [] => none
  | p :: ps, c :: cs => if c = p then dropLit ps cs else none

/-- `["\']?`: drop one optional quote character. -/
def dropQuote (l : List Char) : List Char :=
  match l with
  | c :: cs => if c = '"' ∨ c = '\'' then cs else l
  | [] => l

/-- `/?`: drop one optional slash. -/
def dropSlash (l : List Char) : List Char :=
  match l with
  | c :: cs => if c = '/' then cs else l
  | [] => l

/-- Match the pattern
`<cite\s+source\s*=\s*["\']?\s*(src-\d+)\s*["\']?\s*/?>`
(target_research.py:152) at the head of the list, returning the captured
group `src-<digits>` and the remainder after the match. The pattern is
deterministic, so greedy maximal munch per quantifier is exact. -/
def matchCite (l : List Char) : Option (String × List Char) :=
  match dropLit "<cite".data l with
  | none => none
  | some r1 =>
    if (r1.takeWhile pyWs).isEmpty then none
    else
      match dropLit "source".data (r1.dropWhile pyWs) with
      | none => none
      | some r2 =>
        match r2.dropWhile pyWs with
        | '=' :: r3 =>
          match dropLit "src-".data ((dropQuote (r3.dropWhile pyWs)).dropWhile pyWs) with
          | none => none
          | some r4 =>
            let digits := r4.takeWhile Char.isDigit
            if digits.isEmpty then none
            else
              match dropSlash ((dropQuote ((r4.dropWhile Char.isDigit).dropWhile pyWs)).dropWhile pyWs) with
              | '>' :: rest => some ("src-" ++ String.mk digits, rest)
              | _ => none
        | _ => none

/-- The inline replacement produced by `tag_replacer`
(target_research.py:149): `[<a href="#refN">N</a>]` for index N. -/
def citeLink (index : Nat) : String :=
  "[<a href=\"#ref" ++ Nat.repr index ++ "\">" ++ Nat.repr index ++ "</a>]"

/-- `re.sub(cite_pattern, tag_replacer, report)` with fuel (one unit per
scan step; `fuel > length` always suffices since every step consumes at
least one character). Returns the rewritten text and, in match order,
the short ids of markers that were dropped with a warning
(target_research.py:145-147). -/
def reSubCiteF (index : List (String × Nat)) :
    Nat → List Char → List Char × List String
  | 0, l => (l, [])
  | _ + 1, [] => ([], [])
  | fuel + 1, c :: cs =>
    match matchCite (c :: cs) with
    | some (sid, rest) =>
      let r := reSubCiteF index fuel rest
      match index.lookup sid with
      | none => (r.1, sid :: r.2)
      | some k => ((citeLink k).data ++ r.1, r.2)
    | none =>
      let r := reSubCiteF index fuel cs
      (c :: r.1, r.2)

/-- The cite-marker substitution pass over a character list. -/
def reSubCite (index : List (String × Nat)) (l : List Char) :
    List Char × List String :=
  reSubCiteF index (l.length + 1) l

/-- Code-point lexicographic `≤` on character lists, as a computable
boolean: this is the order Python uses to compare strings. -/
def charListLe : List Char → List Char → Bool
  | [], _ => true
  | _ :: _, [] => false
  | a :: as, b :: bs =>
    if a.toNat = b.toNat then charListLe as bs
    else decide (a.toNat < b.toNat)

/-- Code-point lexicographic `≤` on strings. -/
def strLe (a b : String) : Bool := charListLe a.data b.data

/-- `sorted(sources.keys())` (target_research.py:139): Python sorts
strings lexicographically by code point. -/
def sortedShortIds (sources : List (String × SourceRec)) : List String :=
  List.insertionSort (fun a b : String => strLe a b = true)
    (sources.map Prod.fst)

/-- `short_id_to_index` (target_research.py:138-140): 1-based index in
sorted order. -/
def shortIdToIndex (sources : List (String × SourceRec)) :
    List (String × Nat) :=
  ((sortedShortIds sources).enum).map fun p => (p.2, p.1 + 1)

/-- One entry of the references section (target_research.py:160-167). -/
def refEntry (idx : Nat) (rec : SourceRec) : String :=
  let domain := recGetStr "domain" rec
  "<p id=\"ref" ++ Nat.repr idx ++ "\">[" ++ Nat.repr idx ++ "] " ++
  "<a href=\"" ++ recGetStr "url" rec ++ "\">" ++ recGetStr "title" rec ++
  "</a>" ++ (if domain ≠ "" then " (" ++ domain ++ ")" else "") ++ "</p>\n"

/-- The reference entries in index order: iterating
`sorted(short_id_to_index.items(), key=lambda x: x[1])` is iterating the
sorted short ids in order. -/
def refEntries (sources : List (String × SourceRec)) : List String :=
  ((sortedShortIds sources).enum).map fun p =>
    refEntry (p.1 + 1) ((sources.lookup p.2).getD [])

/-- The `"\n\n## References\n"` block (target_research.py:159-167). -/
def referencesBlock (sources : List (String × SourceRec)) : String :=
  "\n\n## References\n" ++ String.join (refEntries sources)

/-- `citation_replacement_callback` (target_research.py:130-172): returns
the processed report (tag substitution, whitespace-before-punctuation
cleanup, references appended) together with the warned-about short ids. -/
def citation_replacement_callback (final_report : String)
    (sources : List (String × SourceRec)) : String × List String :=
  let short_id_to_index := shortIdToIndex sources
  let subbed := reSubCite short_id_to_index final_report.data
  let processed_report := List.asString (wsCleanAux [] subbed.1)
  (processed_report ++ referencesBlock sources, subbed.2)

/-! ### SalesEscalationChecker._run_async_impl (target_research.py:182-225) -/

/-- A primitive Python value inside the evaluation dict. -/
inductive PyPrim where
  | pstr : String → PyPrim
  | pint : Int → PyPrim
deriving DecidableEq, Repr

/-- The session-state value under `"sales_research_evaluation"`: either a
parsed dict or some other (e.g. raw string) value. -/
inductive EvalVal where
  | vdict : List (String × PyPrim) → EvalVal
  | vstr : String → EvalVal
deriving DecidableEq, Repr

/-- Python truthiness test `not evaluation_result` for the modelled
values. -/
def EvalVal.falsy : EvalVal → Bool
  | .vdict kvs => kvs.isEmpty
  | .vstr s => s.isEmpty

/-- The slice of session state the checker reads
(target_research.py:187-197). -/
structure CheckerState where
  loop_iteration_count : Option Nat
  sales_research_evaluation : Option EvalVal
deriving DecidableEq, Repr

/-- Result of one checker pass: the persisted counter (written at
target_research.py:188 before anything else), whether a warning was
logged, and the yielded event's `escalate` flag — or an uncaught
exception (there is no try/except in `_run_async_impl`). -/
inductive CheckerResult where
  | yield (newCount : Nat) (warned : Bool) (escalate : Bool)
  | exn (newCount : Nat) (msg : String)
deriving DecidableEq, Repr

/-- The persisted `loop_iteration_count` after the pass (written in every
case, including the exception case). -/
def CheckerResult.newCount : CheckerResult → Nat
  | .yield n _ _ => n
  | .exn n _ => n

/-- Whether the pass yielded an event with `escalate=True`. -/
def CheckerResult.escalates : CheckerResult → Bool
  | .yield _ _ e => e
  | .exn _ _ => false

/-- One pass of `SalesEscalationChecker._run_async_impl`
(target_research.py:182-225). `maxIter` is `config.max_search_iterations`. -/
def checkerStep (maxIter : Nat) (st : CheckerState) : CheckerResult :=
  let iteration_count := st.loop_iteration_count.getD 0
  let newCount := iteration_count + 1
  if maxIter ≤ iteration_count then
    CheckerResult.yield newCount false true
  else
    match st.sales_research_evaluation with
    | none => CheckerResult.yield newCount true true
    | some evaluation_result =>
      if evaluation_result.falsy then CheckerResult.yield newCount true true
      else
        match evaluation_result with
        | .vstr _ =>
          CheckerResult.exn newCount
            "AttributeError: object has no attribute get"
        | .vdict kvs =>
          let grade := kvs.lookup "grade"
          if grade = some (PyPrim.pstr "comprehensive") ∨
             grade = some (PyPrim.pstr "sales_ready") then
            CheckerResult.yield newCount false true
          else if grade = some (PyPrim.pstr "needs_improvement") then
            if 2 ≤ iteration_count then CheckerResult.yield newCount false true
            else CheckerResult.yield newCount false false
          else
            CheckerResult.yield newCount false false

/-! ### update_project_report (mongoupload.py:104-144) -/

/-- The fixed allow-list of report fields (mongoupload.py:108-119). -/
def allowed_fields : List String :=
  ["client_org_research", "market_context", "prospect_research",
   "market_segment", "target_org_research", "client_org_research_html",
   "market_context_html", "prospect_research_html", "market_segment_html",
   "target_org_research_html"]

/-- One `update_one` write: the filter's project id and the `$set`
payload. -/
structure WriteOp where
  project_id : String
  report_type : String
  report : String
  html_report : String
deriving DecidableEq, Repr

/-- `update_project_report(project_id, report, report_type, html_report)`
(mongoupload.py:104-144). `mongo_env` is `os.getenv("MONGO_DB_CONNECTOR")`
(`none` when unset); `db` is the list of stored project ids, determining
`matched_count`. Returns the database writes performed, in order, and
either success or the message of the `ValueError` raised. -/
def update_project_report (mongo_env : Option String) (db : List String)
    (project_id report report_type html_report : String) :
    List WriteOp × Except String Unit :=
  if report_type ∉ allowed_fields then
    ([], Except.error "Invalid report_type")
  else if (mongo_env.getD "").isEmpty then
    ([], Except.error "MONGO_DB_CONNECTOR environment variable is not set.")
  else
    let write : WriteOp := ⟨project_id, report_type, report, html_report⟩
    let matched_count := db.countP (fun pid => pid = project_id)
    if matched_count = 0 then
      ([write], Except.error ("No project found with project_id " ++ project_id))
    else
      ([write], Except.ok ())

/-! ### Derived observations used in theorem statements -/

/-- Keys of an insertion-ordered dict. -/
def keysOf {α β : Type} (m : List (α × β)) : List α := m.map Prod.fst

/-- The short id minted for the `n`-th source (`f"src-{id_counter}"`). -/
def srcId (n : Nat) : String := "src-" ++ Nat.repr n

/-- The web URLs referenced by one event's grounding chunks, in order. -/
def urlsOfEvent (e : SessionEvent) : List String :=
  match e.grounding_metadata with
  | none => []
  | some md => (md.grounding_chunks.filterMap GroundingChunk.web).map WebChunk.uri

/-- The web URLs referenced by a list of events, in order. -/
def urlsOfEvents (events : List SessionEvent) : List String :=
  events.flatMap urlsOfEvent

/-- The URLs of `urls` not bound in `ks`, first occurrence only, in
first-seen order. -/
def freshUrls (ks : List String) : List String → List String
  | [] => []
  | u :: us => if u ∈ ks then freshUrls ks us else u :: freshUrls (ks ++ [u]) us

/-- The `chunks_info` mapping determined by an index `u`: enumerated
chunks with a web part whose URL is bound in `u`. -/
def ciOf (u : List (String × String)) (chunks : List (Nat × GroundingChunk)) :
    List (Nat × String) :=
  chunks.filterMap fun p =>
    p.2.web.bind fun w => (u.lookup w.uri).map fun sid => (p.1, sid)

/-- Append a batch of claims to a record. -/
def addClaims (rec : SourceRec) (cs : List SupportedClaim) : SourceRec :=
  cs.foldl recAppendClaim rec

/-- The claim record built for pair `i` of a support
(target_research.py:116-124). -/
def claimOfSupport (support : GroundingSupport) (i : Nat) : SupportedClaim :=
  ⟨(support.segment.map SupportSegment.text).getD "",
   (support.confidence_scores.getD []).getD i (1 / 2 : ℚ)⟩

/-- The claims a batch of supports appends to source `sid`, given
`chunks_info = ci`. -/
def supportClaimsFor (ci : List (Nat × String))
    (supports : List GroundingSupport) (sid : String) : List SupportedClaim :=
  supports.flatMap fun support =>
    (((support.grounding_chunk_indices.getD []).enum).filterMap fun p =>
      (ci.lookup p.2).bind fun sid' =>
        if sid' = sid then some (claimOfSupport support p.1) else none)

/-- The claims one event appends to source `sid`, reading bindings from
index `u`. -/
def eventClaimsFor (u : List (String × String)) (e : SessionEvent)
    (sid : String) : List SupportedClaim :=
  match e.grounding_metadata with
  | none => []
  | some md =>
    if md.grounding_chunks.isEmpty then []
    else supportClaimsFor (ciOf u md.grounding_chunks.enum)
      md.grounding_supports sid

/-- The claims a whole ingestion pass appends to source `sid`, reading
bindings from index `u`. -/
def eventsClaimsFor (u : List (String × String)) (events : List SessionEvent)
    (sid : String) : List SupportedClaim :=
  events.flatMap fun e => eventClaimsFor u e sid

/-- Well-formedness of the ledger state: the invariant established by
starting from empty state and running ingestion passes. -/
structure LedgerWF (st : LedgerState) : Prop where
  vals : st.url_to_short_id.map Prod.snd =
    (List.range st.url_to_short_id.length).map fun i => srcId (i + 1)
  skeys : keysOf st.sources = st.url_to_short_id.map Prod.snd
  urlsNodup : (keysOf st.url_to_short_id).Nodup
  recs : ∀ p ∈ st.sources, ∃ cs,
    p.2.lookup "supported_claims" = some (SVal.claims cs)

/-- The index entries minted for a list of fresh URLs, starting above
`base` already-assigned ids. -/
def mintIds (base : Nat) : List String → List (String × String)
  | [] => []
  | url :: urls => (url, srcId (base + 1)) :: mintIds (base + 1) urls

/-- URLs of a chunk list (those with a web part), in order. -/
def chunkUrls (chunks : List GroundingChunk) : List String :=
  (chunks.filterMap GroundingChunk.web).map WebChunk.uri

/-- The supported-claims list of source `sid`, `[]` when the source does
not exist. -/
def sclaims (s : List (String × SourceRec)) (sid : String) :
    List SupportedClaim :=
  ((s.lookup sid).map recClaims).getD []

/-- Mid-ingestion well-formedness of the `(index, sources, counter)`
accumulator. -/
def AccOK (acc : IngestAcc) : Prop :=
  acc.2.2 = acc.1.length + 1 ∧
  acc.1.map Prod.snd = ((List.range acc.1.length).map fun i => srcId (i + 1)) ∧
  keysOf acc.2.1 = acc.1.map Prod.snd ∧
  (keysOf acc.1).Nodup

/-- Every record stores an actual claims list under
`"supported_claims"`. -/
def RecsOK (s : List (String × SourceRec)) : Prop :=
  ∀ p ∈ s, ∃ cs, p.2.lookup "supported_claims" = some (SVal.claims cs)

/-- The exact key set of the dict literal at target_research.py:100-106. -/
def recFieldKeys : List String :=
  ["short_id", "title", "url", "domain", "supported_claims"]

/-- Every source record has exactly the keys of the creation literal. -/
def RecKeysOK (s : List (String × SourceRec)) : Prop :=
  ∀ p ∈ s, keysOf p.2 = recFieldKeys

/-! ### Concrete scenario inputs -/

/-- Web chunk for URL A. -/
def exWebA : WebChunk := ⟨"https://a.example/x", "A title", "a.example"⟩

/-- Web chunk for URL B. -/
def exWebB : WebChunk := ⟨"https://b.example/y", "B title", "b.example"⟩

/-- An event introducing only URL A. -/
def exEventA : SessionEvent := ⟨some ⟨[⟨some exWebA⟩], []⟩⟩

/-- An event introducing only URL B. -/
def exEventB : SessionEvent := ⟨some ⟨[⟨some exWebB⟩], []⟩⟩

/-- A support with a confidence score for chunk 0. -/
def exSup1 : GroundingSupport := ⟨some [9 / 10], some [0], some ⟨"claim one"⟩⟩

/-- A support with no confidence scores for chunk 0 (defaults to 0.5). -/
def exSup2 : GroundingSupport := ⟨none, some [0], some ⟨"claim two"⟩⟩

/-- An event with one chunk (URL A) and two supports citing it. -/
def exEventClaims : SessionEvent := ⟨some ⟨[⟨some exWebA⟩], [exSup1, exSup2]⟩⟩

/-- The source record produced by ingesting `exEventClaims` from empty. -/
def exRec1 : SourceRec :=
  [("short_id", SVal.str "src-1"),
   ("title", SVal.str "A title"),
   ("url", SVal.str "https://a.example/x"),
   ("domain", SVal.str "a.example"),
   ("supported_claims", SVal.claims
     [⟨"claim one", 9 / 10⟩, ⟨"claim two", 1 / 2⟩])]

/-- A verdict dict graded "insufficient". -/
def exInsuffVerdict : EvalVal :=
  EvalVal.vdict [("grade", PyPrim.pstr "insufficient")]

/-! ### Structured report inputs for the rewriter -/

/-- A report modelled as an interleaving of plain text and canonical
citation markers. -/
inductive ReportSeg where
  | text : String → ReportSeg
  | cite : String → ReportSeg
deriving DecidableEq, Repr

/-- The literal text of a segment; a cite renders as the canonical
marker `<cite source="SID" />`. -/
def ReportSeg.render : ReportSeg → String
  | .text t => t
  | .cite sid => "<cite source=\"" ++ sid ++ "\" />"

/-- The report text of a segment list. -/
def reportOf : List ReportSeg → String
  | [] => ""
  | sg :: segs => sg.render ++ reportOf segs

/-- What the substitution pass turns one segment into: text unchanged, a
known marker becomes its reference link, an unknown marker is deleted. -/
def ReportSeg.subst (index : List (String × Nat)) : ReportSeg → String
  | .text t => t
  | .cite sid =>
    match index.lookup sid with
    | none => ""
    | some k => citeLink k

/-- The substituted report text of a segment list. -/
def substReport (index : List (String × Nat)) : List ReportSeg → String
  | [] => ""
  | sg :: segs => sg.subst index ++ substReport index segs

/-- The warnings (dropped marker ids) of a segment list, in order. -/
def substWarnings (index : List (String × Nat)) (segs : List ReportSeg) :
    List String :=
  segs.filterMap fun sg =>
    match sg with
    | .cite sid => if (index.lookup sid).isSome then none else some sid
    | _ => none

/-- A short id of the shape the cite pattern captures:
`src-` followed by one or more digits. -/
def IsSrcSid (sid : String) : Prop :=
  ∃ d : List Char, d ≠ [] ∧ (∀ c ∈ d, c.isDigit) ∧ sid = "src-" ++ String.mk d

/-- Whether `pat` occurs at the head of `l`. -/
def headMatches : List Char → List Char → Bool
  | _, [] => true
  | [], _ :: _ => false
  | c :: cs, p :: ps => c = p && headMatches cs ps

/-- Whether `pat` occurs anywhere in `l`. -/
def containsSeq : List Char → List Char → Bool
  | [], pat => pat.isEmpty
  | l@(_ :: cs), pat => headMatches l pat || containsSeq cs pat

/-- Reference sources for the concrete rewriter scenarios. -/
def exRefSources : List (String × SourceRec) :=
  [("src-1", mkSourceRec "src-1" "Example One" "https://one.example/a"
     "one.example"),
   ("src-2", mkSourceRec "src-2" "Example Two" "https://two.example/b"
     "two.example")]

/-- Sixteen sources "src-1" … "src-16". -/
def exSources16 : List (String × SourceRec) :=
  (List.range 16).map fun i =>
    (srcId (i + 1), mkSourceRec (srcId (i + 1)) "T" "https://t.example" "t.example")

/-! ### Decimal representation helpers (for reasoning about the minted
`"src-" ++ Nat.repr c` short ids) -/

/-- Numeric value of a decimal digit character. -/
def digitVal (c : Char) : Nat := c.toNat - 48

/-- Decimal valuation of a character list. -/
def decVal (l : List Char) : Nat := l.foldl (fun a c => 10 * a + digitVal c) 0

/-- Claims contributed by the (i, chunk_idx) pairs of one support. -/
def pairClaimsFor (ci : List (Nat × String)) (support : GroundingSupport)
    (pairs : List (Nat × Nat)) (sid : String) : List SupportedClaim :=
  pairs.filterMap fun p =>
    (ci.lookup p.2).bind fun sid' =>
      if sid' = sid then some (claimOfSupport support p.1) else none

/-! ## Lemmas and claim theorems -/

lemma toDigitsCore_append (fuel : Nat) : ∀ (n : Nat) (ds : List Char),
    Nat.toDigitsCore 10 fuel n ds = Nat.toDigitsCore 10 fuel n [] ++ ds := by
  induction fuel with
  | zero => intro n ds; simp [Nat.toDigitsCore]
  | succ fuel ih =>
    intro n ds
    simp only [Nat.toDigitsCore]
    by_cases h : n / 10 = 0
    · simp [h]
    · simp only [h, if_false]
      rw [ih (n / 10) ((n % 10).digitChar :: ds), ih (n / 10) [(n % 10).digitChar]]
      simp

lemma decVal_snoc (l : List Char) (c : Char) :
    decVal (l ++ [c]) = 10 * decVal l + digitVal c := by
  simp [decVal, List.foldl_append]

lemma digitVal_digitChar (m : Nat) (h : m < 10) :
    digitVal (Nat.digitChar m) = m := by
  interval_cases m <;> rfl

lemma decVal_toDigitsCore (fuel : Nat) : ∀ n : Nat, n < fuel →
    decVal (Nat.toDigitsCore 10 fuel n []) = n := by
  induction fuel with
  | zero => intro n h; omega
  | succ fuel ih =>
    intro n h
    simp only [Nat.toDigitsCore]
    have hlt : n % 10 < 10 := by omega
    by_cases h10 : n / 10 = 0
    · simp only [h10, if_true]
      have h9 : n < 10 := by omega
      have hm : n % 10 = n := by omega
      rw [hm]
      simpa [decVal] using digitVal_digitChar n h9
    · have hdiv : n / 10 < fuel := by omega
      simp only [h10, if_false]
      rw [toDigitsCore_append, decVal_snoc, ih (n / 10) hdiv,
        digitVal_digitChar (n % 10) hlt]
      omega

lemma natRepr_injective : Function.Injective Nat.repr := by
  intro m n h
  have h2 : Nat.toDigits 10 m = Nat.toDigits 10 n := by
    have := congrArg String.data h
    simpa [Nat.repr, List.asString] using this
  have hm := decVal_toDigitsCore (m + 1) m (by omega)
  have hn := decVal_toDigitsCore (n + 1) n (by omega)
  rw [show Nat.toDigitsCore 10 (m + 1) m [] = Nat.toDigits 10 m from rfl, h2] at hm
  rw [show Nat.toDigitsCore 10 (n + 1) n [] = Nat.toDigits 10 n from rfl] at hn
  omega

/-- The minted short ids are pairwise distinct across counters. -/
lemma srcId_injective {m n : Nat} (h : "src-" ++ Nat.repr m = "src-" ++ Nat.repr n) :
    m = n := by
  apply natRepr_injective
  have := congrArg String.data h
  simp only [String.data_append] at this
  exact String.ext (List.append_cancel_left this)

end OrgResearch

namespace OrgResearch

/-! ### Dict lemmas -/

lemma lookup_eq_none_iff {α β : Type} [BEq α] [LawfulBEq α] (m : List (α × β)) (k : α) :
    m.lookup k = none ↔ k ∉ keysOf m := by
  induction m with
  | nil => simp [keysOf]
  | cons p m ih =>
    obtain ⟨k1, v1⟩ := p
    by_cases h : k = k1
    · subst h
      simp [List.lookup_cons, keysOf]
    · rw [List.lookup_cons]
      have hbeq : (k == k1) = false := by simp [h]
      simp only [hbeq]
      rw [ih]
      simp [keysOf, h]

lemma lookup_isSome_iff {α β : Type} [BEq α] [LawfulBEq α] (m : List (α × β)) (k : α) :
    (m.lookup k).isSome = true ↔ k ∈ keysOf m := by
  cases hl : m.lookup k with
  | none => simp [(lookup_eq_none_iff m k).mp hl]
  | some v =>
    have hmem : k ∈ keysOf m := by
      by_contra hmem
      rw [(lookup_eq_none_iff m k).mpr hmem] at hl
      exact Option.noConfusion hl
    simp [hmem]

lemma dictSet_of_fresh {β : Type} (m : List (String × β)) (k : String)
    (v : β) (h : k ∉ keysOf m) : dictSet m k v = m ++ [(k, v)] := by
  have : m.lookup k = none := (lookup_eq_none_iff m k).mpr h
  simp [dictSet, this]

lemma lookup_cons_self {α β : Type} [BEq α] [LawfulBEq α] (k : α) (v : β) (m : List (α × β)) :
    ((k, v) :: m).lookup k = some v := by
  simp [List.lookup_cons]

lemma lookup_cons_ne {α β : Type} [BEq α] [LawfulBEq α] {k k1 : α} (v : β) (m : List (α × β))
    (h : k ≠ k1) : ((k1, v) :: m).lookup k = m.lookup k := by
  have hbeq : (k == k1) = false := by simp [h]
  simp [List.lookup_cons, hbeq]

lemma keysOf_append {α β : Type} (m1 m2 : List (α × β)) :
    keysOf (m1 ++ m2) = keysOf m1 ++ keysOf m2 := by
  simp [keysOf]

lemma lookup_append_left {α β : Type} [BEq α] [LawfulBEq α] {m1 : List (α × β)} (m2 : List (α × β))
    {k : α} {v : β} (h : m1.lookup k = some v) :
    (m1 ++ m2).lookup k = some v := by
  rw [List.lookup_append, h]; rfl

lemma keysOf_sourcesAppendClaim (s : List (String × SourceRec))
    (sid : String) (c : SupportedClaim) :
    keysOf (sourcesAppendClaim s sid c) = keysOf s := by
  induction s with
  | nil => rfl
  | cons p s ih =>
    simp only [sourcesAppendClaim, List.map_cons, keysOf, List.map] at *
    by_cases h : p.1 = sid <;> simp [h, ih]

lemma lookup_sourcesAppendClaim (s : List (String × SourceRec))
    (sid k : String) (c : SupportedClaim) :
    (sourcesAppendClaim s sid c).lookup k =
      (s.lookup k).map fun rec => if k = sid then recAppendClaim rec c else rec := by
  induction s with
  | nil => rfl
  | cons p s ih =>
    obtain ⟨k1, rec1⟩ := p
    simp only [sourcesAppendClaim, List.map_cons] at ih ⊢
    by_cases h1 : k1 = sid
    · subst h1
      by_cases h2 : k = k1
      · subst h2
        simp [lookup_cons_self]
      · rw [if_pos rfl]
        rw [lookup_cons_ne _ _ h2, lookup_cons_ne _ _ h2]
        exact ih
    · by_cases h2 : k = k1
      · subst h2
        rw [if_neg h1, lookup_cons_self, lookup_cons_self]
        simp [h1]
      · rw [if_neg h1, lookup_cons_ne _ _ h2, lookup_cons_ne _ _ h2]
        exact ih

lemma keysOf_recAppendClaim (rec : SourceRec) (c : SupportedClaim) :
    keysOf (recAppendClaim rec c) = keysOf rec := by
  induction rec with
  | nil => rfl
  | cons p rec ih =>
    simp only [recAppendClaim, List.map_cons, keysOf, List.map] at *
    by_cases h : p.1 = "supported_claims"
    · cases hv : p.2 <;> simp [h, hv, ih]
    · simp [h, ih]

lemma lookup_recAppendClaim_ne (rec : SourceRec) (c : SupportedClaim)
    (k : String) (hk : k ≠ "supported_claims") :
    (recAppendClaim rec c).lookup k = rec.lookup k := by
  induction rec with
  | nil => rfl
  | cons p rec ih =>
    obtain ⟨k1, v1⟩ := p
    simp only [recAppendClaim, List.map_cons] at ih ⊢
    by_cases h1 : k1 = "supported_claims"
    · subst h1
      rw [if_pos rfl]
      cases v1 with
      | str s1 =>
        rw [lookup_cons_ne _ _ hk, lookup_cons_ne _ _ hk]
        exact ih
      | claims cs1 =>
        rw [lookup_cons_ne _ _ hk, lookup_cons_ne _ _ hk]
        exact ih
    · rw [if_neg h1]
      by_cases h2 : k = k1
      · subst h2
        rw [lookup_cons_self, lookup_cons_self]
      · rw [lookup_cons_ne _ _ h2, lookup_cons_ne _ _ h2]
        exact ih

lemma lookup_recAppendClaim_claims (rec : SourceRec) (c : SupportedClaim)
    (cs : List SupportedClaim)
    (h : rec.lookup "supported_claims" = some (SVal.claims cs)) :
    (recAppendClaim rec c).lookup "supported_claims" =
      some (SVal.claims (cs ++ [c])) := by
  induction rec with
  | nil => simp [List.lookup] at h
  | cons p rec ih =>
    obtain ⟨k1, v1⟩ := p
    by_cases h1 : k1 = "supported_claims"
    · subst h1
      rw [lookup_cons_self] at h
      cases v1 with
      | str s => exact Option.noConfusion h (fun he => SVal.noConfusion he)
      | claims cs1 =>
        have hcs : cs1 = cs := SVal.claims.inj (Option.some.inj h)
        subst hcs
        simp only [recAppendClaim, List.map_cons, if_pos rfl]
        exact lookup_cons_self _ _ _
    · have hne : ("supported_claims" : String) ≠ k1 := fun he => h1 he.symm
      rw [lookup_cons_ne _ _ hne] at h
      simp only [recAppendClaim, List.map_cons, if_neg h1]
      rw [lookup_cons_ne _ _ hne]
      exact ih h

lemma recClaims_eq_of_lookup (rec : SourceRec) (cs : List SupportedClaim)
    (h : rec.lookup "supported_claims" = some (SVal.claims cs)) :
    recClaims rec = cs := by
  simp [recClaims, h]

lemma addClaims_append (rec : SourceRec) (cs1 cs2 : List SupportedClaim) :
    addClaims rec (cs1 ++ cs2) = addClaims (addClaims rec cs1) cs2 := by
  simp [addClaims, List.foldl_append]

lemma addClaims_lookup_claims (cs : List SupportedClaim) :
    ∀ (rec : SourceRec) (cs0 : List SupportedClaim),
    rec.lookup "supported_claims" = some (SVal.claims cs0) →
    (addClaims rec cs).lookup "supported_claims" =
      some (SVal.claims (cs0 ++ cs)) := by
  induction cs with
  | nil => intro rec cs0 h; simpa [addClaims] using h
  | cons c cs ih =>
    intro rec cs0 h
    have h1 := lookup_recAppendClaim_claims rec c cs0 h
    have := ih (recAppendClaim rec c) (cs0 ++ [c]) h1
    simpa [addClaims] using this

lemma addClaims_lookup_ne (cs : List SupportedClaim) (rec : SourceRec)
    (k : String) (hk : k ≠ "supported_claims") :
    (addClaims rec cs).lookup k = rec.lookup k := by
  induction cs generalizing rec with
  | nil => simp [addClaims]
  | cons c cs ih =>
    simp only [addClaims, List.foldl_cons]
    rw [show List.foldl recAppendClaim (recAppendClaim rec c) cs =
      addClaims (recAppendClaim rec c) cs from rfl, ih (recAppendClaim rec c),
      lookup_recAppendClaim_ne rec c k hk]

/-! ### Support-loop characterization -/

lemma lookup_supportFold (ci : List (Nat × String)) (support : GroundingSupport) :
    ∀ (pairs : List (Nat × Nat)) (s : List (String × SourceRec)) (sid : String),
    (pairs.foldl
      (fun s p =>
        match ci.lookup p.2 with
        | none => s
        | some short_id =>
          sourcesAppendClaim s short_id (claimOfSupport support p.1)) s).lookup sid =
      (s.lookup sid).map fun rec => addClaims rec (pairClaimsFor ci support pairs sid) := by
  intro pairs
  induction pairs with
  | nil =>
    intro s sid
    cases hs : s.lookup sid <;> simp only [List.foldl_nil, hs] <;> rfl
  | cons p pairs ih =>
    intro s sid
    simp only [List.foldl_cons]
    cases hci : ci.lookup p.2 with
    | none =>
      rw [ih]
      simp [pairClaimsFor, hci]
    | some sid' =>
      rw [ih, lookup_sourcesAppendClaim]
      cases hs : s.lookup sid with
      | none => rfl
      | some rec =>
        by_cases h : sid' = sid
        · subst h
          simp only [pairClaimsFor, List.filterMap_cons, hci, Option.some_bind,
            if_pos rfl]
          simp [addClaims]
        · have h2 : sid ≠ sid' := fun he => h he.symm
          simp only [pairClaimsFor, List.filterMap_cons, hci, Option.some_bind,
            if_neg h]
          simp [if_neg h2]

lemma keysOf_supportFold (ci : List (Nat × String)) (support : GroundingSupport) :
    ∀ (pairs : List (Nat × Nat)) (s : List (String × SourceRec)),
    keysOf (pairs.foldl
      (fun s p =>
        match ci.lookup p.2 with
        | none => s
        | some short_id =>
          sourcesAppendClaim s short_id (claimOfSupport support p.1)) s) = keysOf s := by
  intro pairs
  induction pairs with
  | nil => intro s; rfl
  | cons p pairs ih =>
    intro s
    simp only [List.foldl_cons]
    cases hci : ci.lookup p.2 with
    | none => rw [ih]
    | some sid' => rw [ih, keysOf_sourcesAppendClaim]

lemma processSupport_eq_supportFold (ci : List (Nat × String))
    (s : List (String × SourceRec)) (support : GroundingSupport) :
    processSupport ci s support =
      ((support.grounding_chunk_indices.getD []).enum).foldl
        (fun s p =>
          match ci.lookup p.2 with
          | none => s
          | some short_id =>
            sourcesAppendClaim s short_id (claimOfSupport support p.1)) s := rfl

lemma lookup_processSupport (ci : List (Nat × String)) (support : GroundingSupport)
    (s : List (String × SourceRec)) (sid : String) :
    (processSupport ci s support).lookup sid =
      (s.lookup sid).map fun rec =>
        addClaims rec (pairClaimsFor ci support
          ((support.grounding_chunk_indices.getD []).enum) sid) := by
  rw [processSupport_eq_supportFold, lookup_supportFold]

lemma supportClaimsFor_cons (ci : List (Nat × String))
    (support : GroundingSupport) (supports : List GroundingSupport) (sid : String) :
    supportClaimsFor ci (support :: supports) sid =
      pairClaimsFor ci support ((support.grounding_chunk_indices.getD []).enum) sid ++
      supportClaimsFor ci supports sid := by
  simp [supportClaimsFor, pairClaimsFor]

lemma lookup_supportsFold (ci : List (Nat × String)) :
    ∀ (supports : List GroundingSupport) (s : List (String × SourceRec)) (sid : String),
    (supports.foldl (processSupport ci) s).lookup sid =
      (s.lookup sid).map fun rec => addClaims rec (supportClaimsFor ci supports sid) := by
  intro supports
  induction supports with
  | nil =>
    intro s sid
    cases hs : s.lookup sid <;> simp only [List.foldl_nil, hs] <;> rfl
  | cons support supports ih =>
    intro s sid
    simp only [List.foldl_cons]
    rw [ih, lookup_processSupport, supportClaimsFor_cons]
    cases s.lookup sid with
    | none => rfl
    | some rec => simp [addClaims_append]

lemma keysOf_supportsFold (ci : List (Nat × String)) :
    ∀ (supports : List GroundingSupport) (s : List (String × SourceRec)),
    keysOf (supports.foldl (processSupport ci) s) = keysOf s := by
  intro supports
  induction supports with
  | nil => intro s; rfl
  | cons support supports ih =>
    intro s
    simp only [List.foldl_cons]
    rw [ih, processSupport_eq_supportFold, keysOf_supportFold]

/-! ### Freshness of minted ids -/

lemma srcId_injective2 {m n : Nat} (h : srcId m = srcId n) : m = n := by
  apply natRepr_injective
  have := congrArg String.data h
  simp only [srcId, String.data_append] at this
  exact String.ext (List.append_cancel_left this)

lemma srcId_not_mem_range {N n : Nat} (h : N < n) :
    srcId n ∉ (List.range N).map fun i => srcId (i + 1) := by
  intro hmem
  simp only [List.mem_map, List.mem_range] at hmem
  obtain ⟨i, hi, he⟩ := hmem
  have := srcId_injective2 he.symm
  omega

lemma mem_keysOf_of_lookup {α β : Type} [BEq α] [LawfulBEq α] {m : List (α × β)} {k : α}
    {v : β} (h : m.lookup k = some v) : k ∈ keysOf m := by
  rw [← lookup_isSome_iff, h]
  rfl

lemma lookup_of_mem_keysOf {α β : Type} [BEq α] [LawfulBEq α] {m : List (α × β)} {k : α}
    (h : k ∈ keysOf m) : ∃ v, m.lookup k = some v := by
  rw [← lookup_isSome_iff] at h
  exact Option.isSome_iff_exists.mp h

lemma mem_of_lookup {α β : Type} [BEq α] [LawfulBEq α] {m : List (α × β)} {k : α} {v : β}
    (h : m.lookup k = some v) : (k, v) ∈ m := by
  induction m with
  | nil => exact Option.noConfusion h
  | cons p m ih =>
    obtain ⟨k1, v1⟩ := p
    by_cases he : k = k1
    · subst he
      rw [lookup_cons_self] at h
      exact List.mem_cons.mpr (Or.inl (by rw [Option.some.inj h]))
    · rw [lookup_cons_ne _ _ he] at h
      exact List.mem_cons.mpr (Or.inr (ih h))

/-! ### chunks_info and fresh-URL helpers -/

lemma ciOf_congr {u1 u2 : List (String × String)}
    (chunks : List (Nat × GroundingChunk))
    (h : ∀ url, url ∈ chunkUrls (chunks.map Prod.snd) →
      u1.lookup url = u2.lookup url) :
    ciOf u1 chunks = ciOf u2 chunks := by
  induction chunks with
  | nil => rfl
  | cons p chunks ih =>
    simp only [ciOf, List.filterMap_cons] at *
    cases hw : p.2.web with
    | none =>
      apply ih
      intro url hm
      apply h
      simp only [chunkUrls, List.map_cons, List.filterMap_cons, hw]
      simpa [chunkUrls] using hm
    | some w =>
      have hu : u1.lookup w.uri = u2.lookup w.uri := by
        apply h
        simp [chunkUrls, List.filterMap_cons, hw]
      have hrest : ciOf u1 chunks = ciOf u2 chunks := by
        apply ih
        intro url hm
        apply h
        simp only [chunkUrls, List.map_cons, List.filterMap_cons, hw, List.map_cons]
        exact List.mem_cons.mpr (Or.inr (by simpa [chunkUrls] using hm))
      simp only [ciOf] at hrest
      simp [hw, hu, hrest]

lemma ciOf_vals_subset (u : List (String × String))
    (chunks : List (Nat × GroundingChunk)) :
    ∀ p ∈ ciOf u chunks, p.2 ∈ u.map Prod.snd := by
  induction chunks with
  | nil => intro p hp; simp [ciOf] at hp
  | cons q chunks ih =>
    intro p hp
    simp only [ciOf, List.filterMap_cons] at hp
    cases hw : q.2.web with
    | none =>
      rw [hw] at hp
      exact ih p hp
    | some w =>
      rw [hw] at hp
      cases hl : u.lookup w.uri with
      | none =>
        simp only [hl, Option.some_bind, Option.none_bind, Option.map_none] at hp
        exact ih p (by simpa [ciOf] using hp)
      | some sid =>
        simp only [hl, Option.some_bind, Option.map_some] at hp
        rcases List.mem_cons.mp hp with h1 | h2
        · subst h1
          simp only [List.mem_map]
          exact ⟨(w.uri, sid), mem_of_lookup hl, rfl⟩
        · exact ih p h2

lemma mem_freshUrls_or (ks : List String) (urls : List String) :
    ∀ url ∈ urls, url ∈ ks ∨ url ∈ freshUrls ks urls := by
  induction urls generalizing ks with
  | nil => intro url h; exact absurd h (List.not_mem_nil url)
  | cons v us ih =>
    intro url hmem
    rcases List.mem_cons.mp hmem with h1 | h2
    · subst h1
      by_cases hv : url ∈ ks
      · exact Or.inl hv
      · right
        simp [freshUrls, hv]
    · by_cases hv : v ∈ ks
      · rcases ih ks url h2 with h | h
        · exact Or.inl h
        · right
          simp [freshUrls, hv, h]
      · rcases ih (ks ++ [v]) url h2 with h | h
        · rcases List.mem_append.mp h with h3 | h3
          · exact Or.inl h3
          · right
            simp only [List.mem_singleton] at h3
            subst h3
            simp [freshUrls, hv]
        · right
          simp [freshUrls, hv, h]

/-! ### The chunk-loop characterization -/

lemma chunkFold_spec :
    ∀ (chunks : List GroundingChunk) (k : Nat) (u : List (String × String))
      (s : List (String × SourceRec)) (c : Nat) (ci0 : List (Nat × String)),
    AccOK (u, s, c) →
    ∀ res, res = (List.enumFrom k chunks).foldl processChunk ((u, s, c), ci0) →
    res.1.1 = u ++ mintIds u.length (freshUrls (keysOf u) (chunkUrls chunks)) ∧
    res.1.2.2 = c + (freshUrls (keysOf u) (chunkUrls chunks)).length ∧
    AccOK res.1 ∧
    (∀ sid, sid ∈ keysOf s → res.1.2.1.lookup sid = s.lookup sid) ∧
    res.2 = ci0 ++ ciOf res.1.1 (List.enumFrom k chunks) ∧
    (∀ sid, sid ∉ keysOf s → sid ∈ keysOf res.1.2.1 →
      ∃ rec, res.1.2.1.lookup sid = some rec ∧
        rec.lookup "supported_claims" = some (SVal.claims [])) := by
  intro chunks
  induction chunks with
  | nil =>
    intro k u s c ci0 hok res hres
    subst hres
    refine ⟨by simp [freshUrls, chunkUrls, mintIds], by simp [freshUrls, chunkUrls],
      hok, fun sid _ => rfl, by simp [ciOf], fun sid h1 h2 => absurd h2 h1⟩
  | cons ch chunks ih =>
    intro k u s c ci0 hok res hres
    rw [List.enumFrom_cons, List.foldl_cons] at hres
    cases hw : ch.web with
    | none =>
      have hstep : processChunk ((u, s, c), ci0) (k, ch) = ((u, s, c), ci0) := by
        simp [processChunk, hw]
      rw [hstep] at hres
      have hurls : chunkUrls (ch :: chunks) = chunkUrls chunks := by
        simp [chunkUrls, List.filterMap_cons, hw]
      obtain ⟨h1, h2, h3, h4, h5, h6⟩ := ih (k + 1) u s c ci0 hok res hres
      refine ⟨by rw [hurls]; exact h1, by rw [hurls]; exact h2, h3, h4, ?_, h6⟩
      rw [h5, List.enumFrom_cons]
      simp [ciOf, List.filterMap_cons, hw]
    | some web =>
      have hurls : chunkUrls (ch :: chunks) = web.uri :: chunkUrls chunks := by
        simp [chunkUrls, List.filterMap_cons, hw]
      cases hl : u.lookup web.uri with
      | some sid0 =>
        have hstep : processChunk ((u, s, c), ci0) (k, ch) =
            ((u, s, c), ci0 ++ [(k, sid0)]) := by
          simp [processChunk, hw, hl]
        rw [hstep] at hres
        have hmem : web.uri ∈ keysOf u := mem_keysOf_of_lookup hl
        have hfresh : freshUrls (keysOf u) (chunkUrls (ch :: chunks)) =
            freshUrls (keysOf u) (chunkUrls chunks) := by
          rw [hurls]; simp [freshUrls, hmem]
        obtain ⟨h1, h2, h3, h4, h5, h6⟩ :=
          ih (k + 1) u s c (ci0 ++ [(k, sid0)]) hok res hres
        have hlook : res.1.1.lookup web.uri = some sid0 := by
          rw [h1, List.lookup_append, hl]; rfl
        refine ⟨by rw [hfresh]; exact h1, by rw [hfresh]; exact h2, h3, h4, ?_, h6⟩
        rw [h5, List.enumFrom_cons]
        simp only [ciOf, List.filterMap_cons, hw, hlook, Option.some_bind,
          Option.map_some]
        simp [ciOf]
      | none =>
        have hctr : c = u.length + 1 := hok.1
        have hvals : u.map Prod.snd =
            (List.range u.length).map fun i => srcId (i + 1) := hok.2.1
        have hskeys : keysOf s = u.map Prod.snd := hok.2.2.1
        have hnodup : (keysOf u).Nodup := hok.2.2.2
        have hnotmem : web.uri ∉ keysOf u := (lookup_eq_none_iff u web.uri).mp hl
        set title := if web.title ≠ web.domain then web.title else web.domain with htitle
        set rec0 := mkSourceRec (srcId c) title web.uri web.domain with hrec0
        have hfresh_s : srcId c ∉ keysOf s := by
          rw [hskeys, hvals]
          exact srcId_not_mem_range (by omega)
        have hstep : processChunk ((u, s, c), ci0) (k, ch) =
            ((u ++ [(web.uri, srcId c)], s ++ [(srcId c, rec0)], c + 1),
             ci0 ++ [(k, srcId c)]) := by
          simp only [processChunk, hw, hl]
          rw [show ("src-" ++ c.repr : String) = srcId c from rfl,
            dictSet_of_fresh s (srcId c) _ hfresh_s]
        rw [hstep] at hres
        have hkeys_u1 : keysOf (u ++ [(web.uri, srcId c)]) = keysOf u ++ [web.uri] := by
          simp [keysOf]
        have hkeys_s1 : keysOf (s ++ [(srcId c, rec0)]) = keysOf s ++ [srcId c] := by
          simp [keysOf]
        have hok1 : AccOK (u ++ [(web.uri, srcId c)], s ++ [(srcId c, rec0)], c + 1) := by
          refine ⟨?_, ?_, ?_, ?_⟩
          · simp only [List.length_append, List.length_singleton]
            omega
          · simp only [List.map_append, List.map_cons, List.map_nil,
              List.length_append, List.length_singleton, List.range_succ,
              List.map_append, hvals, hctr]
          · rw [hkeys_s1, hskeys]
            simp
          · rw [hkeys_u1]
            simp [List.nodup_append, hnodup, hnotmem]
        obtain ⟨h1, h2, h3, h4, h5, h6⟩ :=
          ih (k + 1) (u ++ [(web.uri, srcId c)]) (s ++ [(srcId c, rec0)]) (c + 1)
            (ci0 ++ [(k, srcId c)]) hok1 res hres
        rw [hkeys_u1] at h1 h2
        have hfreshlist : freshUrls (keysOf u) (chunkUrls (ch :: chunks)) =
            web.uri :: freshUrls (keysOf u ++ [web.uri]) (chunkUrls chunks) := by
          rw [hurls]
          simp [freshUrls, hnotmem]
        refine ⟨?_, ?_, h3, ?_, ?_, ?_⟩
        · rw [h1, hfreshlist]
          simp only [mintIds, List.length_append, List.length_singleton, ← hctr]
          simp [List.append_assoc]
        · rw [h2, hfreshlist]
          simp only [List.length_cons]
          omega
        · intro sid hs
          have hs1 : sid ∈ keysOf (s ++ [(srcId c, rec0)]) := by
            rw [hkeys_s1]
            exact List.mem_append.mpr (Or.inl hs)
          rw [h4 sid hs1]
          obtain ⟨v, hv⟩ := lookup_of_mem_keysOf hs
          simp [List.lookup_append, hv]
        · rw [h5, List.enumFrom_cons]
          have hlook : res.1.1.lookup web.uri = some (srcId c) := by
            rw [h1]
            simp [List.lookup_append, hl, List.lookup_cons]
          simp only [ciOf, List.filterMap_cons, hw, hlook, Option.some_bind,
            Option.map_some]
          simp [ciOf]
        · intro sid hnot hmem2
          by_cases hcase : sid = srcId c
          · subst hcase
            have hs1 : srcId c ∈ keysOf (s ++ [(srcId c, rec0)]) := by
              rw [hkeys_s1]
              exact List.mem_append.mpr (Or.inr (by simp))
            refine ⟨rec0, ?_, ?_⟩
            · rw [h4 _ hs1]
              have hnone : s.lookup (srcId c) = none :=
                (lookup_eq_none_iff _ _).mpr hfresh_s
              simp [List.lookup_append, hnone, List.lookup_cons]
            · rfl
          · have hnot1 : sid ∉ keysOf (s ++ [(srcId c, rec0)]) := by
              rw [hkeys_s1]
              intro hmem3
              rcases List.mem_append.mp hmem3 with h | h
              · exact hnot h
              · simp only [List.mem_singleton] at h
                exact hcase h
            exact h6 sid hnot1 hmem2

/-! ### RecsOK preservation -/

lemma recsOK_sourcesAppendClaim {s : List (String × SourceRec)}
    (hs : RecsOK s) (sid : String) (c : SupportedClaim) :
    RecsOK (sourcesAppendClaim s sid c) := by
  intro p hp
  simp only [sourcesAppendClaim, List.mem_map] at hp
  obtain ⟨q, hq, hpq⟩ := hp
  obtain ⟨cs, hcs⟩ := hs q hq
  by_cases h : q.1 = sid
  · rw [if_pos h] at hpq
    subst hpq
    exact ⟨cs ++ [c], lookup_recAppendClaim_claims q.2 c cs hcs⟩
  · rw [if_neg h] at hpq
    subst hpq
    exact ⟨cs, hcs⟩

lemma recsOK_supportFold (ci : List (Nat × String)) (support : GroundingSupport) :
    ∀ (pairs : List (Nat × Nat)) (s : List (String × SourceRec)), RecsOK s →
    RecsOK (pairs.foldl
      (fun s p =>
        match ci.lookup p.2 with
        | none => s
        | some short_id =>
          sourcesAppendClaim s short_id (claimOfSupport support p.1)) s) := by
  intro pairs
  induction pairs with
  | nil => intro s hs; exact hs
  | cons p pairs ih =>
    intro s hs
    simp only [List.foldl_cons]
    cases hci : ci.lookup p.2 with
    | none => exact ih s hs
    | some sid' => exact ih _ (recsOK_sourcesAppendClaim hs sid' _)

lemma recsOK_supportsFold (ci : List (Nat × String)) :
    ∀ (supports : List GroundingSupport) (s : List (String × SourceRec)),
    RecsOK s → RecsOK (supports.foldl (processSupport ci) s) := by
  intro supports
  induction supports with
  | nil => intro s hs; exact hs
  | cons support supports ih =>
    intro s hs
    simp only [List.foldl_cons]
    apply ih
    rw [processSupport_eq_supportFold]
    exact recsOK_supportFold ci support _ s hs

lemma recsOK_dictSet {s : List (String × SourceRec)} (hs : RecsOK s)
    (k : String) (rec : SourceRec)
    (hrec : ∃ cs, rec.lookup "supported_claims" = some (SVal.claims cs)) :
    RecsOK (dictSet s k rec) := by
  intro p hp
  by_cases hk : (s.lookup k).isSome
  · simp only [dictSet, if_pos hk, List.mem_map] at hp
    obtain ⟨q, hq, hpq⟩ := hp
    by_cases h : q.1 = k
    · rw [if_pos h] at hpq
      subst hpq
      exact hrec
    · rw [if_neg h] at hpq
      subst hpq
      exact hs q hq
  · simp only [dictSet, if_neg hk, List.mem_append] at hp
    rcases hp with h | h
    · exact hs p h
    · simp only [List.mem_singleton] at h
      subst h
      exact hrec

lemma recsOK_mkSourceRec (sid title url domain : String) :
    ∃ cs, (mkSourceRec sid title url domain).lookup "supported_claims" =
      some (SVal.claims cs) := ⟨[], rfl⟩

lemma recsOK_chunkFold :
    ∀ (echunks : List (Nat × GroundingChunk)) (acc : IngestAcc × List (Nat × String)),
    RecsOK acc.1.2.1 → RecsOK (echunks.foldl processChunk acc).1.2.1 := by
  intro echunks
  induction echunks with
  | nil => intro acc h; exact h
  | cons p echunks ih =>
    intro acc h
    simp only [List.foldl_cons]
    apply ih
    obtain ⟨⟨u, s, c⟩, ci⟩ := acc
    cases hw : p.2.web with
    | none => simpa [processChunk, hw] using h
    | some web =>
      cases hl : u.lookup web.uri with
      | some sid0 => simpa [processChunk, hw, hl] using h
      | none =>
        simp only [processChunk, hw, hl]
        exact recsOK_dictSet h _ _ (recsOK_mkSourceRec _ _ _ _)

/-! ### Claims of absent sources -/

lemma supportClaimsFor_eq_nil (ci : List (Nat × String))
    (supports : List GroundingSupport) (sid : String)
    (h : ∀ p ∈ ci, p.2 ≠ sid) :
    supportClaimsFor ci supports sid = [] := by
  induction supports with
  | nil => rfl
  | cons support supports ih =>
    rw [supportClaimsFor_cons, ih, List.append_nil]
    rw [pairClaimsFor, List.filterMap_eq_nil_iff]
    intro p hp
    cases hci : ci.lookup p.2 with
    | none => rfl
    | some sid' =>
      have : sid' ≠ sid := h (p.2, sid') (mem_of_lookup hci)
      simp [hci, this]

/-! ### The event-level characterization -/

lemma processEvent_spec (e : SessionEvent) (u : List (String × String))
    (s : List (String × SourceRec)) (c : Nat)
    (hok : AccOK (u, s, c)) (hrecs : RecsOK s) :
    ∀ res, res = processEvent (u, s, c) e →
    res.1 = u ++ mintIds u.length (freshUrls (keysOf u) (urlsOfEvent e)) ∧
    res.2.2 = c + (freshUrls (keysOf u) (urlsOfEvent e)).length ∧
    AccOK res ∧ RecsOK res.2.1 ∧
    (∀ sid rec, s.lookup sid = some rec →
      res.2.1.lookup sid = some (addClaims rec (eventClaimsFor res.1 e sid))) ∧
    (∀ sid, sclaims res.2.1 sid = sclaims s sid ++ eventClaimsFor res.1 e sid) := by
  intro res hres
  cases hmd : e.grounding_metadata with
  | none =>
    have hres2 : res = (u, s, c) := by
      rw [hres]
      simp [processEvent, hmd]
    have hurls : urlsOfEvent e = [] := by simp [urlsOfEvent, hmd]
    have hcl : ∀ v sid, eventClaimsFor v e sid = [] := by
      intro v sid
      simp [eventClaimsFor, hmd]
    subst hres2
    refine ⟨by simp [hurls, freshUrls, mintIds], by simp [hurls, freshUrls],
      hok, hrecs, ?_, ?_⟩
    · intro sid rec hrec
      rw [hcl]
      simpa [addClaims] using hrec
    · intro sid
      rw [hcl, List.append_nil]
  | some md =>
    by_cases hemp : md.grounding_chunks.isEmpty
    · have hres2 : res = (u, s, c) := by
        rw [hres]
        simp [processEvent, hmd, hemp]
      have hchunks : md.grounding_chunks = [] := List.isEmpty_iff.mp hemp
      have hurls : urlsOfEvent e = [] := by
        simp [urlsOfEvent, hmd, hchunks]
      have hcl : ∀ v sid, eventClaimsFor v e sid = [] := by
        intro v sid
        simp [eventClaimsFor, hmd, hemp]
      subst hres2
      refine ⟨by simp [hurls, freshUrls, mintIds], by simp [hurls, freshUrls],
        hok, hrecs, ?_, ?_⟩
      · intro sid rec hrec
        rw [hcl]
        simpa [addClaims] using hrec
      · intro sid
        rw [hcl, List.append_nil]
    · set step := (List.enumFrom 0 md.grounding_chunks).foldl processChunk
        ((u, s, c), []) with hstepd
      obtain ⟨h1, h2, h3, h4, h5, h6⟩ :=
        chunkFold_spec md.grounding_chunks 0 u s c [] hok step hstepd
      have hci : step.2 = ciOf step.1.1 (List.enumFrom 0 md.grounding_chunks) := by
        simpa using h5
      have henum : md.grounding_chunks.enum = List.enumFrom 0 md.grounding_chunks :=
        rfl
      have hres2 : res = (step.1.1,
          md.grounding_supports.foldl (processSupport step.2) step.1.2.1,
          step.1.2.2) := by
        rw [hres]
        simp only [processEvent, hmd, hemp, Bool.false_eq_true, if_false, henum,
          ← hstepd]
        by_cases hse : md.grounding_supports.isEmpty
        · rw [List.isEmpty_iff.mp hse]
          simp
        · simp only [hse, Bool.false_eq_true, if_false]
      have hurls : urlsOfEvent e = chunkUrls md.grounding_chunks := by
        simp [urlsOfEvent, hmd, chunkUrls]
      have hclaims : ∀ sid, eventClaimsFor step.1.1 e sid =
          supportClaimsFor step.2 md.grounding_supports sid := by
        intro sid
        simp only [eventClaimsFor, hmd, hemp, Bool.false_eq_true, if_false]
        rw [hci]
        rfl
      have hkeys1 : keysOf step.1.2.1 = step.1.1.map Prod.snd := h3.2.2.1
      refine ⟨?_, ?_, ?_, ?_, ?_, ?_⟩
      · rw [hres2, hurls]
        exact h1
      · rw [hres2, hurls]
        exact h2
      · rw [hres2]
        exact ⟨h3.1, h3.2.1, by rw [keysOf_supportsFold]; exact h3.2.2.1, h3.2.2.2⟩
      · rw [hres2]
        exact recsOK_supportsFold step.2 md.grounding_supports step.1.2.1
          (recsOK_chunkFold _ ((u, s, c), []) hrecs)
      · intro sid rec hrec
        have hmem : sid ∈ keysOf s := mem_keysOf_of_lookup hrec
        have hs1 : step.1.2.1.lookup sid = some rec := by
          rw [h4 sid hmem]
          exact hrec
        rw [hres2]
        simp only [lookup_supportsFold, hs1, Option.map_some']
        rw [show (step.1.1, md.grounding_supports.foldl (processSupport step.2)
          step.1.2.1, step.1.2.2).1 = step.1.1 from rfl, hclaims]
      · intro sid
        by_cases hks : sid ∈ keysOf s
        · obtain ⟨rec, hrec⟩ := lookup_of_mem_keysOf hks
          obtain ⟨cs0, hcs0⟩ := hrecs (sid, rec) (mem_of_lookup hrec)
          have hs1 : step.1.2.1.lookup sid = some rec := by
            rw [h4 sid hks]
            exact hrec
          rw [hres2]
          simp only [lookup_supportsFold, hs1, Option.map_some', sclaims, hrec,
            Option.getD_some]
          rw [show (step.1.1, md.grounding_supports.foldl (processSupport step.2)
            step.1.2.1, step.1.2.2).1 = step.1.1 from rfl, hclaims]
          rw [recClaims_eq_of_lookup rec cs0 hcs0,
            recClaims_eq_of_lookup _ _ (addClaims_lookup_claims _ rec cs0 hcs0)]
        · have hsnone : s.lookup sid = none := (lookup_eq_none_iff s sid).mpr hks
          by_cases hks1 : sid ∈ keysOf step.1.2.1
          · obtain ⟨rec0, hrec0, hrec0c⟩ := h6 sid hks hks1
            rw [hres2]
            simp only [lookup_supportsFold, hrec0, Option.map_some', sclaims,
              hsnone, Option.map_none', Option.getD_none, Option.getD_some,
              List.nil_append]
            rw [show (step.1.1, md.grounding_supports.foldl (processSupport step.2)
              step.1.2.1, step.1.2.2).1 = step.1.1 from rfl, hclaims]
            rw [recClaims_eq_of_lookup _ _ (addClaims_lookup_claims _ rec0 [] hrec0c),
              List.nil_append]
          · have hs1none : step.1.2.1.lookup sid = none :=
              (lookup_eq_none_iff _ _).mpr hks1
            have hevnil : eventClaimsFor step.1.1 e sid = [] := by
              rw [hclaims]
              apply supportClaimsFor_eq_nil
              intro p hp
              intro hpsid
              apply hks1
              rw [hkeys1]
              rw [← hpsid]
              exact ciOf_vals_subset step.1.1 _ p (by rw [← hci]; exact hp)
            rw [hres2]
            simp only [lookup_supportsFold, hs1none, Option.map_none', sclaims,
              hsnone, Option.getD_none, List.nil_append]
            rw [show (step.1.1, md.grounding_supports.foldl (processSupport step.2)
              step.1.2.1, step.1.2.2).1 = step.1.1 from rfl, hevnil]

/-! ### Composition helpers for the pass-level lemma -/

lemma mintIds_length (base : Nat) (urls : List String) :
    (mintIds base urls).length = urls.length := by
  induction urls generalizing base with
  | nil => rfl
  | cons v urls ih => simp [mintIds, ih]

lemma mintIds_keys (base : Nat) (urls : List String) :
    keysOf (mintIds base urls) = urls := by
  induction urls generalizing base with
  | nil => rfl
  | cons v urls ih =>
    have h := ih (base + 1)
    simp only [keysOf] at h ⊢
    simp [mintIds, h]

lemma mintIds_append (base : Nat) (l1 l2 : List String) :
    mintIds base (l1 ++ l2) = mintIds base l1 ++ mintIds (base + l1.length) l2 := by
  induction l1 generalizing base with
  | nil => simp [mintIds]
  | cons v l1 ih =>
    show (v, srcId (base + 1)) :: mintIds (base + 1) (l1 ++ l2) =
      (v, srcId (base + 1)) :: mintIds (base + 1) l1 ++
        mintIds (base + (v :: l1).length) l2
    simp only [List.length_cons]
    rw [ih (base + 1),
      show base + (l1.length + 1) = base + 1 + l1.length from by omega]
    rfl

lemma freshUrls_append (ks l1 l2 : List String) :
    freshUrls ks (l1 ++ l2) =
      freshUrls ks l1 ++ freshUrls (ks ++ freshUrls ks l1) l2 := by
  induction l1 generalizing ks with
  | nil => simp [freshUrls]
  | cons v l1 ih =>
    by_cases hv : v ∈ ks
    · simp only [List.cons_append, freshUrls, if_pos hv]
      exact ih ks
    · rw [show (v :: l1) ++ l2 = v :: (l1 ++ l2) from rfl,
        show freshUrls ks (v :: (l1 ++ l2)) =
          v :: freshUrls (ks ++ [v]) (l1 ++ l2) from by simp [freshUrls, hv],
        show freshUrls ks (v :: l1) =
          v :: freshUrls (ks ++ [v]) l1 from by simp [freshUrls, hv],
        ih (ks ++ [v])]
      simp

lemma urlsOfEvents_cons (e : SessionEvent) (es : List SessionEvent) :
    urlsOfEvents (e :: es) = urlsOfEvent e ++ urlsOfEvents es := by
  simp [urlsOfEvents]

lemma eventsClaimsFor_cons (v : List (String × String)) (e : SessionEvent)
    (es : List SessionEvent) (sid : String) :
    eventsClaimsFor v (e :: es) sid =
      eventClaimsFor v e sid ++ eventsClaimsFor v es sid := by
  simp [eventsClaimsFor]

lemma eventClaimsFor_congr {u1 u2 : List (String × String)} (e : SessionEvent)
    (sid : String)
    (h : ∀ url ∈ urlsOfEvent e, u1.lookup url = u2.lookup url) :
    eventClaimsFor u1 e sid = eventClaimsFor u2 e sid := by
  cases hmd : e.grounding_metadata with
  | none => simp [eventClaimsFor, hmd]
  | some md =>
    by_cases hemp : md.grounding_chunks.isEmpty
    · simp [eventClaimsFor, hmd, hemp]
    · simp only [eventClaimsFor, hmd, hemp, Bool.false_eq_true, if_false]
      rw [ciOf_congr md.grounding_chunks.enum]
      intro url hurl
      apply h
      rw [show md.grounding_chunks.enum = List.enumFrom 0 md.grounding_chunks
        from rfl, List.enumFrom_map_snd] at hurl
      simp [urlsOfEvent, hmd]
      simpa [chunkUrls] using hurl

/-! ### The pass-level characterization -/

lemma ingest_spec :
    ∀ (events : List SessionEvent) (u : List (String × String))
      (s : List (String × SourceRec)) (c : Nat),
    AccOK (u, s, c) → RecsOK s →
    ∀ res, res = events.foldl processEvent (u, s, c) →
    res.1 = u ++ mintIds u.length (freshUrls (keysOf u) (urlsOfEvents events)) ∧
    res.2.2 = c + (freshUrls (keysOf u) (urlsOfEvents events)).length ∧
    AccOK res ∧ RecsOK res.2.1 ∧
    (∀ sid rec, s.lookup sid = some rec →
      res.2.1.lookup sid = some (addClaims rec (eventsClaimsFor res.1 events sid))) ∧
    (∀ sid, sclaims res.2.1 sid = sclaims s sid ++ eventsClaimsFor res.1 events sid) := by
  intro events
  induction events with
  | nil =>
    intro u s c hok hrecs res hres
    subst hres
    refine ⟨by simp [urlsOfEvents, freshUrls, mintIds],
      by simp [urlsOfEvents, freshUrls], hok, hrecs, ?_, ?_⟩
    · intro sid rec hrec
      simpa [eventsClaimsFor, addClaims] using hrec
    · intro sid
      simp [eventsClaimsFor]
  | cons e es ih =>
    intro u s c hok hrecs res hres
    rw [List.foldl_cons] at hres
    obtain ⟨e1, e2, e3, e4, e5, e6⟩ :=
      processEvent_spec e u s c hok hrecs (processEvent (u, s, c) e) rfl
    set acc1 := processEvent (u, s, c) e with hacc1
    have hok1 : AccOK (acc1.1, acc1.2.1, acc1.2.2) := by
      simpa using e3
    obtain ⟨i1, i2, i3, i4, i5, i6⟩ := ih acc1.1 acc1.2.1 acc1.2.2 hok1 e4 res
      (by simpa using hres)
    have hkeys1 : keysOf acc1.1 =
        keysOf u ++ freshUrls (keysOf u) (urlsOfEvent e) := by
      rw [e1, keysOf_append, mintIds_keys]
    have hlen1 : acc1.1.length =
        u.length + (freshUrls (keysOf u) (urlsOfEvent e)).length := by
      rw [e1, List.length_append, mintIds_length]
    -- every URL of `e` is bound in acc1.1, with the same binding as in res.1
    have hbound : ∀ url ∈ urlsOfEvent e, ∃ sid, acc1.1.lookup url = some sid := by
      intro url hurl
      apply lookup_of_mem_keysOf
      rw [hkeys1]
      rcases mem_freshUrls_or (keysOf u) (urlsOfEvent e) url hurl with h | h
      · exact List.mem_append.mpr (Or.inl h)
      · exact List.mem_append.mpr (Or.inr h)
    have hagree : ∀ url ∈ urlsOfEvent e, acc1.1.lookup url = res.1.lookup url := by
      intro url hurl
      obtain ⟨sid, hsid⟩ := hbound url hurl
      rw [hsid, i1, List.lookup_append, hsid]
      rfl
    have hec : ∀ sid, eventClaimsFor acc1.1 e sid = eventClaimsFor res.1 e sid :=
      fun sid => eventClaimsFor_congr e sid hagree
    refine ⟨?_, ?_, i3, i4, ?_, ?_⟩
    · rw [i1, hkeys1, hlen1, e1, urlsOfEvents_cons, freshUrls_append,
        mintIds_append]
      simp [List.append_assoc]
    · rw [i2, hkeys1, e2, urlsOfEvents_cons, freshUrls_append]
      simp only [List.length_append]
      omega
    · intro sid rec hrec
      rw [i5 sid _ (e5 sid rec hrec), eventsClaimsFor_cons, ← hec,
        addClaims_append]
    · intro sid
      rw [i6 sid, e6 sid, eventsClaimsFor_cons, ← hec, List.append_assoc]

/-! ### Record key-shape preservation -/

lemma recKeysOK_sourcesAppendClaim {s : List (String × SourceRec)}
    (hs : RecKeysOK s) (sid : String) (c : SupportedClaim) :
    RecKeysOK (sourcesAppendClaim s sid c) := by
  intro p hp
  simp only [sourcesAppendClaim, List.mem_map] at hp
  obtain ⟨q, hq, hpq⟩ := hp
  by_cases h : q.1 = sid
  · rw [if_pos h] at hpq
    subst hpq
    rw [show (q.1, recAppendClaim q.2 c).2 = recAppendClaim q.2 c from rfl,
      keysOf_recAppendClaim]
    exact hs q hq
  · rw [if_neg h] at hpq
    subst hpq
    exact hs q hq

lemma recKeysOK_supportFold (ci : List (Nat × String)) (support : GroundingSupport) :
    ∀ (pairs : List (Nat × Nat)) (s : List (String × SourceRec)), RecKeysOK s →
    RecKeysOK (pairs.foldl
      (fun s p =>
        match ci.lookup p.2 with
        | none => s
        | some short_id =>
          sourcesAppendClaim s short_id (claimOfSupport support p.1)) s) := by
  intro pairs
  induction pairs with
  | nil => intro s hs; exact hs
  | cons p pairs ih =>
    intro s hs
    simp only [List.foldl_cons]
    cases hci : ci.lookup p.2 with
    | none => exact ih s hs
    | some sid' => exact ih _ (recKeysOK_sourcesAppendClaim hs sid' _)

lemma recKeysOK_supportsFold (ci : List (Nat × String)) :
    ∀ (supports : List GroundingSupport) (s : List (String × SourceRec)),
    RecKeysOK s → RecKeysOK (supports.foldl (processSupport ci) s) := by
  intro supports
  induction supports with
  | nil => intro s hs; exact hs
  | cons support supports ih =>
    intro s hs
    simp only [List.foldl_cons]
    apply ih
    rw [processSupport_eq_supportFold]
    exact recKeysOK_supportFold ci support _ s hs

lemma recKeysOK_dictSet {s : List (String × SourceRec)} (hs : RecKeysOK s)
    (k : String) (rec : SourceRec) (hrec : keysOf rec = recFieldKeys) :
    RecKeysOK (dictSet s k rec) := by
  intro p hp
  by_cases hk : (s.lookup k).isSome
  · simp only [dictSet, if_pos hk, List.mem_map] at hp
    obtain ⟨q, hq, hpq⟩ := hp
    by_cases h : q.1 = k
    · rw [if_pos h] at hpq
      subst hpq
      exact hrec
    · rw [if_neg h] at hpq
      subst hpq
      exact hs q hq
  · simp only [dictSet, if_neg hk, List.mem_append] at hp
    rcases hp with h | h
    · exact hs p h
    · simp only [List.mem_singleton] at h
      subst h
      exact hrec

lemma recKeysOK_chunkFold :
    ∀ (echunks : List (Nat × GroundingChunk)) (acc : IngestAcc × List (Nat × String)),
    RecKeysOK acc.1.2.1 → RecKeysOK (echunks.foldl processChunk acc).1.2.1 := by
  intro echunks
  induction echunks with
  | nil => intro acc h; exact h
  | cons p echunks ih =>
    intro acc h
    simp only [List.foldl_cons]
    apply ih
    obtain ⟨⟨u, s, c⟩, ci⟩ := acc
    cases hw : p.2.web with
    | none => simpa [processChunk, hw] using h
    | some web =>
      cases hl : u.lookup web.uri with
      | some sid0 => simpa [processChunk, hw, hl] using h
      | none =>
        simp only [processChunk, hw, hl]
        exact recKeysOK_dictSet h _ _ rfl

lemma recKeysOK_processEvent (e : SessionEvent) (acc : IngestAcc)
    (h : RecKeysOK acc.2.1) : RecKeysOK (processEvent acc e).2.1 := by
  obtain ⟨u, s, c⟩ := acc
  cases hmd : e.grounding_metadata with
  | none => simpa [processEvent, hmd] using h
  | some md =>
    by_cases hemp : md.grounding_chunks.isEmpty
    · simpa [processEvent, hmd, hemp] using h
    · simp only [processEvent, hmd, hemp, Bool.false_eq_true, if_false]
      have h1 : RecKeysOK ((md.grounding_chunks.enum).foldl processChunk
          (((u, s, c) : IngestAcc), [])).1.2.1 :=
        recKeysOK_chunkFold _ (((u, s, c) : IngestAcc), []) h
      by_cases hse : md.grounding_supports.isEmpty
      · simpa [hse] using h1
      · simp only [hse, Bool.false_eq_true, if_false]
        exact recKeysOK_supportsFold _ _ _ h1

lemma recKeysOK_ingest :
    ∀ (events : List SessionEvent) (acc : IngestAcc), RecKeysOK acc.2.1 →
    RecKeysOK (events.foldl processEvent acc).2.1 := by
  intro events
  induction events with
  | nil => intro acc h; exact h
  | cons e es ih =>
    intro acc h
    simp only [List.foldl_cons]
    exact ih _ (recKeysOK_processEvent e acc h)

lemma recKeysOK_callback (events : List SessionEvent) (st : LedgerState)
    (h : RecKeysOK st.sources) :
    RecKeysOK (collect_research_sources_callback events st).sources := by
  exact recKeysOK_ingest events
    (st.url_to_short_id, st.sources, st.url_to_short_id.length + 1) h

/-! ### Callback-level characterization -/

lemma ledgerWF_accOK {st : LedgerState} (h : LedgerWF st) :
    AccOK (st.url_to_short_id, st.sources, st.url_to_short_id.length + 1) :=
  ⟨rfl, h.vals, h.skeys, h.urlsNodup⟩

lemma ledgerWF_empty : LedgerWF ⟨[], []⟩ :=
  ⟨rfl, rfl, List.nodup_nil, fun p hp => absurd hp (List.not_mem_nil p)⟩

lemma callback_spec (events : List SessionEvent) (st : LedgerState)
    (hwf : LedgerWF st) :
    ∀ st', st' = collect_research_sources_callback events st →
    st'.url_to_short_id = st.url_to_short_id ++
      mintIds st.url_to_short_id.length
        (freshUrls (keysOf st.url_to_short_id) (urlsOfEvents events)) ∧
    LedgerWF st' ∧
    (∀ sid rec, st.sources.lookup sid = some rec →
      st'.sources.lookup sid =
        some (addClaims rec (eventsClaimsFor st'.url_to_short_id events sid))) ∧
    (∀ sid, sclaims st'.sources sid =
      sclaims st.sources sid ++ eventsClaimsFor st'.url_to_short_id events sid) := by
  intro st' hst'
  set res := events.foldl processEvent
    (st.url_to_short_id, st.sources, st.url_to_short_id.length + 1) with hres
  obtain ⟨h1, h2, h3, h4, h5, h6⟩ := ingest_spec events st.url_to_short_id
    st.sources (st.url_to_short_id.length + 1) (ledgerWF_accOK hwf) hwf.recs
    res hres
  have hst2 : st' = ⟨res.1, res.2.1⟩ := by
    rw [hst']
    rfl
  subst hst2
  exact ⟨h1, ⟨h3.2.1, h3.2.2.1, h3.2.2.2, h4⟩, h5, h6⟩

lemma freshUrls_eq_nil {ks urls : List String} (h : ∀ u ∈ urls, u ∈ ks) :
    freshUrls ks urls = [] := by
  induction urls with
  | nil => rfl
  | cons v urls ih =>
    have hv : v ∈ ks := h v (List.mem_cons_self v urls)
    simp only [freshUrls, if_pos hv]
    exact ih fun u hu => h u (List.mem_cons_of_mem v hu)

/-! ### Scanner length lemmas -/

lemma dropWhile_length_le (p : Char → Bool) (l : List Char) :
    (l.dropWhile p).length ≤ l.length := by
  induction l with
  | nil => simp
  | cons c cs ih =>
    by_cases h : p c
    · simp only [List.dropWhile_cons, h, if_true]
      exact Nat.le_succ_of_le ih
    · simp [List.dropWhile_cons, h]

lemma dropLit_length {p l r : List Char} (h : dropLit p l = some r) :
    r.length ≤ l.length ∧ (p ≠ [] → r.length < l.length) := by
  induction p generalizing l with
  | nil =>
    simp only [dropLit] at h
    rw [Option.some.inj h]
    exact ⟨Nat.le_refl _, fun hp => absurd rfl hp⟩
  | cons a p ih =>
    cases l with
    | nil => exact Option.noConfusion h
    | cons c cs =>
      simp only [dropLit] at h
      by_cases hc : c = a
      · rw [if_pos hc] at h
        obtain ⟨h1, _⟩ := ih h
        exact ⟨Nat.le_succ_of_le h1, fun _ => Nat.lt_succ_of_le h1⟩
      · rw [if_neg hc] at h
        exact Option.noConfusion h

lemma dropQuote_length_le (l : List Char) : (dropQuote l).length ≤ l.length := by
  cases l with
  | nil => simp [dropQuote]
  | cons c cs =>
    by_cases h : c = '"' ∨ c = '\''
    · simp only [dropQuote, if_pos h]
      exact Nat.le_succ _
    · simp [dropQuote, h]

lemma dropSlash_length_le (l : List Char) : (dropSlash l).length ≤ l.length := by
  cases l with
  | nil => simp [dropSlash]
  | cons c cs =>
    by_cases h : c = '/'
    · simp only [dropSlash, if_pos h]
      exact Nat.le_succ _
    · simp [dropSlash, h]

lemma matchCite_length {l : List Char} {sid : String} {rest : List Char}
    (h : matchCite l = some (sid, rest)) : rest.length < l.length := by
  unfold matchCite at h
  split at h
  · exact Option.noConfusion h
  rename_i r1 h1
  have hl1 : r1.length < l.length := (dropLit_length h1).2 (by decide)
  split at h
  · exact Option.noConfusion h
  split at h
  · exact Option.noConfusion h
  rename_i he1 r2 h2
  have hl2 : r2.length ≤ r1.length :=
    Nat.le_trans (dropLit_length h2).1 (dropWhile_length_le pyWs r1)
  split at h
  · rename_i r3 h3
    have hl3 : r3.length < r2.length := by
      have hd := dropWhile_length_le pyWs r2
      rw [h3] at hd
      simp only [List.length_cons] at hd
      omega
    split at h
    · exact Option.noConfusion h
    rename_i r4 h4
    have hl4 : r4.length ≤ r3.length := by
      have a1 := (dropLit_length h4).1
      have a2 := dropWhile_length_le pyWs (dropQuote (r3.dropWhile pyWs))
      have a3 := dropQuote_length_le (r3.dropWhile pyWs)
      have a4 := dropWhile_length_le pyWs r3
      omega
    split at h
    · rename_i r5 h5
      simp only [] at h
      split at h
      · exact Option.noConfusion h
      rename_i he4
      have hl5 : r5.length < r4.length := by
        have a1 : (dropSlash ((dropQuote ((r4.dropWhile
            Char.isDigit).dropWhile pyWs)).dropWhile pyWs)).length ≤
            r4.length := by
          have b1 := dropSlash_length_le ((dropQuote ((r4.dropWhile
            Char.isDigit).dropWhile pyWs)).dropWhile pyWs)
          have b2 := dropWhile_length_le pyWs (dropQuote
            ((r4.dropWhile Char.isDigit).dropWhile pyWs))
          have b3 := dropQuote_length_le
            ((r4.dropWhile Char.isDigit).dropWhile pyWs)
          have b4 := dropWhile_length_le pyWs (r4.dropWhile Char.isDigit)
          have b5 := dropWhile_length_le Char.isDigit r4
          omega
        rw [h5] at a1
        simp only [List.length_cons] at a1
        omega
      have hr : rest = r5 := ((Prod.mk.inj (Option.some.inj h)).2).symm
      subst hr
      omega
    · simp only [] at h
      split at h
      · exact Option.noConfusion h
      · exact Option.noConfusion h
  · exact Option.noConfusion h

lemma reSubCiteF_fuel (index : List (String × Nat)) :
    ∀ (f1 : Nat) (l : List Char), l.length < f1 →
    reSubCiteF index f1 l = reSubCiteF index (l.length + 1) l := by
  intro f1
  induction f1 using Nat.strong_induction_on with
  | _ f1 ih =>
    intro l hl
    match f1, hl with
    | f + 1, hl =>
      cases l with
      | nil => rfl
      | cons c cs =>
        have hlen : (c :: cs).length = cs.length + 1 := rfl
        have hcs : cs.length < f := by
          rw [hlen] at hl
          omega
        simp only [reSubCiteF]
        cases hm : matchCite (c :: cs) with
        | none =>
          simp only
          rw [ih f (by omega) cs hcs,
            ih (c :: cs).length (by omega) cs (by rw [hlen]; omega)]
        | some p =>
          obtain ⟨sid2, rest⟩ := p
          have hrl : rest.length < (c :: cs).length := matchCite_length hm
          simp only
          rw [ih f (by omega) rest (by omega),
            ih (c :: cs).length (by omega) rest hrl]

/-! ### Marker recognition lemmas -/

lemma takeWhile_append_all {p : Char → Bool} :
    ∀ (d : List Char) (x : Char) (r : List Char), (∀ c ∈ d, p c = true) →
    p x = false → (d ++ x :: r).takeWhile p = d := by
  intro d
  induction d with
  | nil =>
    intro x r _ hx
    simp [List.takeWhile_cons, hx]
  | cons a d ih =>
    intro x r hd hx
    have ha : p a = true := hd a (List.mem_cons_self a d)
    simp only [List.cons_append, List.takeWhile_cons, ha, if_true]
    rw [ih x r (fun c hc => hd c (List.mem_cons_of_mem a hc)) hx]

lemma dropWhile_append_all {p : Char → Bool} :
    ∀ (d : List Char) (x : Char) (r : List Char), (∀ c ∈ d, p c = true) →
    p x = false → (d ++ x :: r).dropWhile p = x :: r := by
  intro d
  induction d with
  | nil =>
    intro x r _ hx
    simp [List.dropWhile_cons, hx]
  | cons a d ih =>
    intro x r hd hx
    have ha : p a = true := hd a (List.mem_cons_self a d)
    simp only [List.cons_append, List.dropWhile_cons, ha, if_true]
    rw [ih x r (fun c hc => hd c (List.mem_cons_of_mem a hc)) hx]

lemma matchCite_none_of_head {c : Char} (cs : List Char) (h : c ≠ '<') :
    matchCite (c :: cs) = none := by
  unfold matchCite
  have hd : dropLit "<cite".data (c :: cs) = none := by
    rw [show ("<cite" : String).data = ['<', 'c', 'i', 't', 'e'] from rfl]
    simp [dropLit, h]
  rw [hd]

lemma matchCite_marker {d : List Char} (rest : List Char) (hne : d ≠ [])
    (hdig : ∀ c ∈ d, c.isDigit = true) :
    matchCite (((ReportSeg.cite ("src-" ++ String.mk d)).render).data ++ rest) =
      some ("src-" ++ String.mk d, rest) := by
  have hdata : (((ReportSeg.cite ("src-" ++ String.mk d)).render).data ++ rest) =
      '<' :: 'c' :: 'i' :: 't' :: 'e' :: ' ' :: 's' :: 'o' :: 'u' :: 'r' ::
      'c' :: 'e' :: '=' :: '"' :: 's' :: 'r' :: 'c' :: '-' ::
      (d ++ '"' :: ' ' :: '/' :: '>' :: rest) := by
    show ("<cite source=\"" ++ ("src-" ++ String.mk d) ++ "\" />").data ++ rest = _
    rw [String.data_append, String.data_append, String.data_append,
      show ("<cite source=\"" : String).data =
        ['<', 'c', 'i', 't', 'e', ' ', 's', 'o', 'u', 'r', 'c', 'e', '=', '"']
        from rfl,
      show ("src-" : String).data = ['s', 'r', 'c', '-'] from rfl,
      show (String.mk d).data = d from rfl,
      show ("\" />" : String).data = ['"', ' ', '/', '>'] from rfl]
    simp
  rw [hdata]
  show (if ((d ++ '"' :: ' ' :: '/' :: '>' :: rest).takeWhile
        Char.isDigit).isEmpty = true then none
      else
        match dropSlash ((dropQuote (((d ++ '"' :: ' ' :: '/' :: '>' ::
            rest).dropWhile Char.isDigit).dropWhile pyWs)).dropWhile pyWs) with
        | '>' :: r => some ("src-" ++ String.mk ((d ++ '"' :: ' ' :: '/' ::
            '>' :: rest).takeWhile Char.isDigit), r)
        | _ => none) = some ("src-" ++ String.mk d, rest)
  rw [takeWhile_append_all d '"' (' ' :: '/' :: '>' :: rest) hdig (by decide),
    dropWhile_append_all d '"' (' ' :: '/' :: '>' :: rest) hdig (by decide)]
  have hemp : d.isEmpty = false := by
    cases d with
    | nil => exact absurd rfl hne
    | cons a d => rfl
  rw [hemp]
  rfl

/-! ### Structured substitution -/

lemma reSubCiteF_nomatch_step (index : List (String × Nat)) (c : Char)
    (cs : List Char) (f : Nat) (h : matchCite (c :: cs) = none) :
    reSubCiteF index (f + 1) (c :: cs) =
      (c :: (reSubCiteF index f cs).1, (reSubCiteF index f cs).2) := by
  simp [reSubCiteF, h]

lemma reSubCiteF_match_step (index : List (String × Nat)) (c : Char)
    (cs : List Char) (f : Nat) (sid : String) (rest : List Char)
    (h : matchCite (c :: cs) = some (sid, rest)) :
    reSubCiteF index (f + 1) (c :: cs) =
      match index.lookup sid with
      | none => ((reSubCiteF index f rest).1, sid :: (reSubCiteF index f rest).2)
      | some k => ((citeLink k).data ++ (reSubCiteF index f rest).1,
          (reSubCiteF index f rest).2) := by
  simp only [reSubCiteF, h]

lemma reSubCiteF_match_step' (index : List (String × Nat)) (l : List Char)
    (f : Nat) (sid : String) (rest : List Char) (hl : l ≠ [])
    (h : matchCite l = some (sid, rest)) :
    reSubCiteF index (f + 1) l =
      match index.lookup sid with
      | none => ((reSubCiteF index f rest).1, sid :: (reSubCiteF index f rest).2)
      | some k => ((citeLink k).data ++ (reSubCiteF index f rest).1,
          (reSubCiteF index f rest).2) := by
  cases l with
  | nil => exact absurd rfl hl
  | cons c cs => exact reSubCiteF_match_step index c cs f sid rest h

lemma reSubCiteF_copies_text (index : List (String × Nat)) :
    ∀ (cs l : List Char) (f : Nat), (∀ c ∈ cs, c ≠ '<') →
    cs.length + l.length < f →
    reSubCiteF index f (cs ++ l) =
      (cs ++ (reSubCite index l).1, (reSubCite index l).2) := by
  intro cs
  induction cs with
  | nil =>
    intro l f _ hf
    simp only [List.nil_append]
    rw [reSubCiteF_fuel index f l (by omega)]
    rfl
  | cons c cs ih =>
    intro l f hlt hf
    match f, hf with
    | f + 1, hf =>
      rw [show (c :: cs) ++ l = c :: (cs ++ l) from rfl,
        reSubCiteF_nomatch_step index c (cs ++ l) f
          (matchCite_none_of_head _ (hlt c (List.mem_cons_self c cs))),
        ih l f (fun x hx => hlt x (List.mem_cons_of_mem c hx))
          (by simp only [List.length_cons] at hf; omega)]
      rfl

lemma reSubCite_structured (index : List (String × Nat)) :
    ∀ (segs : List ReportSeg),
    (∀ t, ReportSeg.text t ∈ segs → ∀ c ∈ t.data, c ≠ '<') →
    (∀ sid, ReportSeg.cite sid ∈ segs → IsSrcSid sid) →
    reSubCite index (reportOf segs).data =
      ((substReport index segs).data, substWarnings index segs) := by
  intro segs
  induction segs with
  | nil =>
    intro _ _
    rfl
  | cons sg rest ih =>
    intro htext hcite
    have ihr := ih (fun t ht => htext t (List.mem_cons_of_mem sg ht))
      (fun sid hs => hcite sid (List.mem_cons_of_mem sg hs))
    cases sg with
    | text t =>
      have hdata : (reportOf (ReportSeg.text t :: rest)).data =
          t.data ++ (reportOf rest).data := by
        show (t ++ reportOf rest).data = _
        rw [String.data_append]
      unfold reSubCite
      rw [hdata]
      have hfuel : (t.data).length + ((reportOf rest).data).length <
          (t.data ++ (reportOf rest).data).length + 1 := by
        rw [List.length_append]
        omega
      rw [reSubCiteF_copies_text index t.data (reportOf rest).data _
        (htext t (List.mem_cons_self _ rest)) hfuel, ihr]
      rfl
    | cite sid =>
      obtain ⟨d, hne, hdig, hsid⟩ := hcite sid (List.mem_cons_self _ rest)
      subst hsid
      have hdata : (reportOf (ReportSeg.cite ("src-" ++ String.mk d) ::
          rest)).data = ((ReportSeg.cite ("src-" ++ String.mk d)).render).data ++
          (reportOf rest).data := by
        show ((ReportSeg.cite ("src-" ++ String.mk d)).render ++
          reportOf rest).data = _
        rw [String.data_append]
      have hmarker := matchCite_marker (reportOf rest).data hne hdig
      have hne2 : ((ReportSeg.cite ("src-" ++ String.mk d)).render).data ++
          (reportOf rest).data ≠ [] := by
        intro hc
        rw [hc] at hmarker
        exact Option.noConfusion ((show matchCite [] = none from rfl) ▸ hmarker)
      have hrd : 0 < (((ReportSeg.cite ("src-" ++ String.mk d)).render).data).length := by
        show 0 < (("<cite source=\"" ++ ("src-" ++ String.mk d) ++
          "\" />").data).length
        rw [String.data_append, String.data_append, List.length_append,
          List.length_append,
          show (("<cite source=\"" : String).data).length = 14 from rfl]
        omega
      have htail : ((reportOf rest).data).length <
          (((ReportSeg.cite ("src-" ++ String.mk d)).render).data ++
            (reportOf rest).data).length := by
        rw [List.length_append]
        omega
      unfold reSubCite
      rw [hdata]
      rw [reSubCiteF_match_step' index _
        ((((ReportSeg.cite ("src-" ++ String.mk d)).render).data ++
          (reportOf rest).data)).length _ _ hne2 hmarker]
      rw [reSubCiteF_fuel index _ _ htail,
        show reSubCiteF index (((reportOf rest).data).length + 1)
          (reportOf rest).data = reSubCite index (reportOf rest).data from rfl,
        ihr]
      cases hlk : index.lookup ("src-" ++ String.mk d) with
      | none =>
        simp only
        rw [show substWarnings index (ReportSeg.cite ("src-" ++ String.mk d) ::
          rest) = ("src-" ++ String.mk d) :: substWarnings index rest from by
            simp [substWarnings, hlk],
          show substReport index (ReportSeg.cite ("src-" ++ String.mk d) ::
            rest) = "" ++ substReport index rest from by
              simp [substReport, ReportSeg.subst, hlk]]
        rfl
      | some k =>
        simp only
        rw [show substWarnings index (ReportSeg.cite ("src-" ++ String.mk d) ::
          rest) = substWarnings index rest from by simp [substWarnings, hlk],
          show substReport index (ReportSeg.cite ("src-" ++ String.mk d) ::
            rest) = citeLink k ++ substReport index rest from by
              simp [substReport, ReportSeg.subst, hlk]]
        rfl

/-! ### Whitespace cleanup invariant -/

lemma ws_not_punct {c : Char} (h : pyWs c = true) : punctCCS c = false := by
  unfold pyWs at h
  simp only [Bool.or_eq_true, decide_eq_true_eq] at h
  rcases h with ((((h | h) | h) | h) | h) | h <;> subst h <;> rfl

lemma chain'_of_all_ws {m : List Char} (h : ∀ c ∈ m, pyWs c = true) :
    List.Chain' (fun a b => pyWs a = true → punctCCS b = false) m := by
  induction m with
  | nil => exact List.chain'_nil
  | cons a t ih =>
    rw [List.chain'_cons']
    constructor
    · intro y hy _
      exact ws_not_punct (h y (List.mem_cons_of_mem a (List.mem_of_mem_head? hy)))
    · exact ih fun c hc => h c (List.mem_cons_of_mem a hc)

lemma wsCleanAux_chain : ∀ (l buf : List Char), (∀ c ∈ buf, pyWs c = true) →
    List.Chain' (fun a b => pyWs a = true → punctCCS b = false)
      (wsCleanAux buf l) := by
  intro l
  induction l with
  | nil =>
    intro buf hbuf
    exact chain'_of_all_ws fun c hc => hbuf c (List.mem_reverse.mp hc)
  | cons c cs ih =>
    intro buf hbuf
    by_cases hws : pyWs c = true
    · simp only [wsCleanAux, hws, if_true]
      apply ih
      intro x hx
      rcases List.mem_cons.mp hx with h | h
      · rw [h]
        exact hws
      · exact hbuf x h
    · have hws' : pyWs c = false := by
        cases hx : pyWs c
        · rfl
        · exact absurd hx hws
      by_cases hp : punctCCS c = true
      · simp only [wsCleanAux, hws', Bool.false_eq_true, if_false, hp, if_true]
        rw [List.chain'_cons']
        refine ⟨?_, ih [] fun x hx => absurd hx (List.not_mem_nil x)⟩
        intro y _ hcws
        rw [hws'] at hcws
        exact Bool.noConfusion hcws
      · have hp' : punctCCS c = false := by
          cases hx : punctCCS c
          · rfl
          · exact absurd hx hp
        simp only [wsCleanAux, hws', Bool.false_eq_true, if_false, hp', if_false]
        rw [List.chain'_append]
        refine ⟨chain'_of_all_ws fun x hx => hbuf x (List.mem_reverse.mp hx),
          ?_, ?_⟩
        · rw [List.chain'_cons']
          refine ⟨?_, ih [] fun x hx => absurd hx (List.not_mem_nil x)⟩
          intro y _ hcws
          rw [hws'] at hcws
          exact Bool.noConfusion hcws
        · intro x _ y hy _
          have hyc : y = c := by
            simp only [List.head?_cons, Option.mem_def, Option.some.injEq] at hy
            exact hy.symm
          rw [hyc]
          exact hp'

/-! ### Sorted-index lemmas -/

lemma lookup_enum_map {xs : List String} (hnd : xs.Nodup) :
    ∀ (n k : Nat) (sid : String), xs.get? k = some sid →
    ((List.enumFrom n xs).map (fun p => (p.2, p.1 + 1))).lookup sid =
      some (n + k + 1) := by
  induction xs with
  | nil =>
    intro n k sid h
    simp at h
  | cons a t ih =>
    intro n k sid h
    cases k with
    | zero =>
      have ha : a = sid := by
        simpa using h
      subst ha
      simp [List.enumFrom_cons, lookup_cons_self]
    | succ k =>
      have hmem : sid ∈ t := List.get?_mem (by simpa using h)
      have hne : sid ≠ a := by
        intro he
        subst he
        exact (List.nodup_cons.mp hnd).1 hmem
      rw [List.enumFrom_cons]
      simp only [List.map_cons]
      rw [lookup_cons_ne _ _ hne]
      have := ih (List.nodup_cons.mp hnd).2 (n + 1) k sid (by simpa using h)
      rw [this]
      congr 1
      omega

lemma sortedShortIds_nodup {sources : List (String × SourceRec)}
    (h : (keysOf sources).Nodup) : (sortedShortIds sources).Nodup := by
  unfold sortedShortIds
  exact ((List.perm_insertionSort _ _).nodup_iff).mpr h


/-! ### Claim C1 -/

/-- C1 counterexample: the code has no MAX_SOURCES cap and no
short-circuit. With the cap configured as 1 (the spec scenario
"MAX_SOURCES=1, two events each introducing a distinct new URL"), the
ledger still creates a second source for the brand-new URL of the second
event, so `len(sources) ≤ MAX_SOURCES` fails. -/
theorem C1_counterexample :
    (collect_research_sources_callback [exEventA, exEventB]
      ⟨[], []⟩).sources.length = 2 ∧
    (collect_research_sources_callback [exEventA, exEventB]
      ⟨[], []⟩).url_to_short_id.lookup "https://b.example/y" = some "src-2" ∧
    ¬((collect_research_sources_callback [exEventA, exEventB]
      ⟨[], []⟩).sources.length ≤ 1) := by
  decide

/-- C1 (amended): ingestion has no source cap and never short-circuits:
every URL appearing in any grounding chunk of the ingested events is
indexed afterwards, and the number of sources grows by exactly the
number of distinct fresh URLs — unboundedly. -/
theorem C1_theorem (events : List SessionEvent) (st : LedgerState)
    (hwf : LedgerWF st) :
    (∀ url ∈ urlsOfEvents events, ∃ sid,
      (collect_research_sources_callback events st).url_to_short_id.lookup url =
        some sid) ∧
    (collect_research_sources_callback events st).sources.length =
      st.sources.length +
      (freshUrls (keysOf st.url_to_short_id) (urlsOfEvents events)).length ∧
    LedgerWF (collect_research_sources_callback events st) := by
  obtain ⟨h1, hwf2, h5, h6⟩ := callback_spec events st hwf _ rfl
  refine ⟨?_, ?_, hwf2⟩
  · intro url hurl
    apply lookup_of_mem_keysOf
    rw [h1, keysOf_append, mintIds_keys]
    rcases mem_freshUrls_or (keysOf st.url_to_short_id) (urlsOfEvents events)
      url hurl with h | h
    · exact List.mem_append.mpr (Or.inl h)
    · exact List.mem_append.mpr (Or.inr h)
  · have hlen1 : (collect_research_sources_callback events st).sources.length =
        (collect_research_sources_callback events st).url_to_short_id.length := by
      have h2 := congrArg List.length hwf2.skeys
      simpa [keysOf] using h2
    have hlen2 : st.sources.length = st.url_to_short_id.length := by
      have h2 := congrArg List.length hwf.skeys
      simpa [keysOf] using h2
    rw [hlen1, h1, List.length_append, mintIds_length, hlen2]

/-- C1 witness: the amended statement evaluated on the two-event
scenario from the empty ledger. -/
theorem C1_witness :
    (∀ url ∈ urlsOfEvents [exEventA, exEventB], ∃ sid,
      (collect_research_sources_callback [exEventA, exEventB]
        ⟨[], []⟩).url_to_short_id.lookup url = some sid) ∧
    (collect_research_sources_callback [exEventA, exEventB]
      ⟨[], []⟩).sources.length =
      (⟨[], []⟩ : LedgerState).sources.length +
      (freshUrls (keysOf (⟨[], []⟩ : LedgerState).url_to_short_id)
        (urlsOfEvents [exEventA, exEventB])).length ∧
    LedgerWF (collect_research_sources_callback [exEventA, exEventB] ⟨[], []⟩) :=
  C1_theorem [exEventA, exEventB] ⟨[], []⟩
    ⟨rfl, rfl, List.nodup_nil, fun p hp => absurd hp (List.not_mem_nil p)⟩

/-! ### Claim C3 -/

/-- C3 counterexample: there is no MAX_CLAIMS_PER_SOURCE bound. A single
event whose two supports both cite chunk 0 appends two claims to
"src-1"; with the cap configured as 1 the bound fails. -/
theorem C3_counterexample :
    recClaims (((collect_research_sources_callback [exEventClaims]
      ⟨[], []⟩).sources.lookup "src-1").getD []) =
      [⟨"claim one", 9 / 10⟩, ⟨"claim two", 1 / 2⟩] ∧
    ¬((recClaims (((collect_research_sources_callback [exEventClaims]
      ⟨[], []⟩).sources.lookup "src-1").getD [])).length ≤ 1) :=
  ⟨rfl, by decide⟩

/-- C3 (amended): ingesting the same URL twice never creates two short
ids — a URL's binding, once assigned, never changes; from the empty
ledger the index is exactly the fresh URLs in first-seen order bound to
"src-1", "src-2", ...; and a later sighting of a known source only
appends claim records, leaving short_id, title, url and domain
untouched. The appended list is unbounded (no MAX_CLAIMS_PER_SOURCE). -/
theorem C3_theorem (events : List SessionEvent) (st : LedgerState)
    (hwf : LedgerWF st) :
    (∀ url sid, st.url_to_short_id.lookup url = some sid →
      (collect_research_sources_callback events st).url_to_short_id.lookup url =
        some sid) ∧
    (collect_research_sources_callback events
      ⟨[], []⟩).url_to_short_id =
      mintIds 0 (freshUrls [] (urlsOfEvents events)) ∧
    (∀ sid rec, st.sources.lookup sid = some rec →
      ∃ cs rec2,
        (collect_research_sources_callback events st).sources.lookup sid =
          some rec2 ∧
        recClaims rec2 = recClaims rec ++ cs ∧
        (∀ k, k ≠ "supported_claims" → rec2.lookup k = rec.lookup k)) := by
  obtain ⟨h1, hwf2, h5, h6⟩ := callback_spec events st hwf _ rfl
  refine ⟨?_, ?_, ?_⟩
  · intro url sid hsid
    rw [h1, List.lookup_append, hsid]
    rfl
  · obtain ⟨g1, _, _, _⟩ := callback_spec events ⟨[], []⟩
      ⟨rfl, rfl, List.nodup_nil, fun p hp => absurd hp (List.not_mem_nil p)⟩ _ rfl
    simpa [keysOf] using g1
  · intro sid rec hrec
    obtain ⟨cs0, hcs0⟩ := hwf.recs (sid, rec) (mem_of_lookup hrec)
    refine ⟨eventsClaimsFor (collect_research_sources_callback events
        st).url_to_short_id events sid,
      addClaims rec (eventsClaimsFor (collect_research_sources_callback events
        st).url_to_short_id events sid), h5 sid rec hrec, ?_, ?_⟩
    · rw [recClaims_eq_of_lookup rec cs0 hcs0,
        recClaims_eq_of_lookup _ _ (addClaims_lookup_claims _ rec cs0 hcs0)]
    · intro k hk
      exact addClaims_lookup_ne _ rec k hk

/-- C3 witness: the amended statement evaluated on the concrete
two-supports scenario. -/
theorem C3_witness :
    ∃ cs rec2,
      (collect_research_sources_callback [exEventA]
        (collect_research_sources_callback [exEventClaims]
          ⟨[], []⟩)).sources.lookup "src-1" = some rec2 ∧
      recClaims rec2 = recClaims exRec1 ++ cs ∧
      (∀ k, k ≠ "supported_claims" → rec2.lookup k = exRec1.lookup k) :=
  (C3_theorem [exEventA]
    (collect_research_sources_callback [exEventClaims] ⟨[], []⟩)
    (by
      have hsrc : (collect_research_sources_callback [exEventClaims]
          ⟨[], []⟩).sources = [("src-1", exRec1)] := rfl
      refine ⟨by decide, by decide, by decide, ?_⟩
      intro p hp
      rw [hsrc] at hp
      have hp2 := List.mem_singleton.mp hp
      subst hp2
      exact ⟨[⟨"claim one", 9 / 10⟩, ⟨"claim two", 1 / 2⟩], rfl⟩)).2.2
    "src-1" exRec1 rfl

/-! ### Claim C7 -/

/-- C7 counterexample: a source record created by ingestion has exactly
the keys short_id, title, url, domain, supported_claims — there is no
source_type field at all, let alone one assigned by keyword rules. -/
theorem C7_counterexample :
    (collect_research_sources_callback [exEventA] ⟨[], []⟩).sources.lookup
      "src-1" = some (mkSourceRec "src-1" "A title" "https://a.example/x"
        "a.example") ∧
    (mkSourceRec "src-1" "A title" "https://a.example/x"
      "a.example").lookup "source_type" = none := by
  decide

/-- C7 (amended): every source record ever produced by ingestion carries
exactly the five keys of the creation literal — short_id, title, url,
domain, supported_claims — and in particular never a source_type key; no
classification is performed. -/
theorem C7_theorem (events : List SessionEvent) (st : LedgerState)
    (hkeys : RecKeysOK st.sources) :
    (∀ p ∈ (collect_research_sources_callback events st).sources,
      keysOf p.2 = recFieldKeys ∧ "source_type" ∉ keysOf p.2) := by
  intro p hp
  have h := recKeysOK_callback events st hkeys p hp
  exact ⟨h, by rw [h]; decide⟩

/-- C7 witness: the amended statement evaluated on the concrete one-event
scenario. -/
theorem C7_witness :
    keysOf (mkSourceRec "src-1" "A title" "https://a.example/x"
      "a.example") = recFieldKeys ∧
    "source_type" ∉ keysOf (mkSourceRec "src-1" "A title"
      "https://a.example/x" "a.example") :=
  C7_theorem [exEventA] ⟨[], []⟩ (fun p hp => absurd hp (List.not_mem_nil p))
    ("src-1", mkSourceRec "src-1" "A title" "https://a.example/x" "a.example")
    (by decide)

/-! ### Claim C9 -/

/-- C9: re-running the ingestion callback on an unchanged session
re-scans every stored event: the url→short_id index is unchanged, the
set of sources is unchanged, each source keeps its short_id, title, url
and domain, and a duplicate copy of its entire supported_claims list is
appended. -/
theorem C9_theorem (events : List SessionEvent) :
    (collect_research_sources_callback events
      (collect_research_sources_callback events ⟨[], []⟩)).url_to_short_id =
      (collect_research_sources_callback events ⟨[], []⟩).url_to_short_id ∧
    keysOf (collect_research_sources_callback events
      (collect_research_sources_callback events ⟨[], []⟩)).sources =
      keysOf (collect_research_sources_callback events ⟨[], []⟩).sources ∧
    (∀ sid rec,
      (collect_research_sources_callback events ⟨[], []⟩).sources.lookup sid =
        some rec →
      ∃ rec2,
        (collect_research_sources_callback events
          (collect_research_sources_callback events
            ⟨[], []⟩)).sources.lookup sid = some rec2 ∧
        recClaims rec2 = recClaims rec ++ recClaims rec ∧
        (∀ k, k ≠ "supported_claims" → rec2.lookup k = rec.lookup k)) := by
  have hwf0 : LedgerWF (⟨[], []⟩ : LedgerState) :=
    ⟨rfl, rfl, List.nodup_nil, fun p hp => absurd hp (List.not_mem_nil p)⟩
  obtain ⟨p1, pwf, p5, p6⟩ := callback_spec events ⟨[], []⟩ hwf0 _ rfl
  obtain ⟨q1, qwf, q5, q6⟩ := callback_spec events
    (collect_research_sources_callback events ⟨[], []⟩) pwf _ rfl
  set s1 := collect_research_sources_callback events ⟨[], []⟩ with hs1
  set s2 := collect_research_sources_callback events s1 with hs2
  have hall : ∀ url ∈ urlsOfEvents events, url ∈ keysOf s1.url_to_short_id := by
    intro url hurl
    rw [p1]
    rcases mem_freshUrls_or (keysOf (⟨[], []⟩ : LedgerState).url_to_short_id)
      (urlsOfEvents events) url hurl with h | h
    · exact absurd h (List.not_mem_nil url)
    · rw [keysOf_append, mintIds_keys]
      exact List.mem_append.mpr (Or.inr (by simpa [keysOf] using h))
  have hidx : s2.url_to_short_id = s1.url_to_short_id := by
    rw [q1, freshUrls_eq_nil hall]
    simp [mintIds]
  have hkeys : keysOf s2.sources = keysOf s1.sources := by
    have a1 := pwf.skeys
    have a2 := qwf.skeys
    rw [a2, hidx, ← a1]
  refine ⟨hidx, hkeys, ?_⟩
  intro sid rec hrec
  have hq := q5 sid rec hrec
  obtain ⟨cs0, hcs0⟩ := pwf.recs (sid, rec) (mem_of_lookup hrec)
  have hclaims0 : recClaims rec = cs0 := recClaims_eq_of_lookup rec cs0 hcs0
  have hsc : sclaims s1.sources sid = recClaims rec := by
    simp [sclaims, hrec]
  have hev : eventsClaimsFor s2.url_to_short_id events sid = recClaims rec := by
    have h := p6 sid
    rw [hsc, show sclaims (⟨[], []⟩ : LedgerState).sources sid = [] from rfl,
      List.nil_append] at h
    rw [hidx]
    exact h.symm
  refine ⟨addClaims rec (eventsClaimsFor s2.url_to_short_id events sid), hq, ?_, ?_⟩
  · rw [hev, hclaims0,
      recClaims_eq_of_lookup _ _ (addClaims_lookup_claims _ rec cs0 hcs0)]
  · intro k hk
    exact addClaims_lookup_ne _ rec k hk

/-- C9 witness: the duplication statement evaluated on the concrete
two-supports scenario. -/
theorem C9_witness :
    ∃ rec2,
      (collect_research_sources_callback [exEventClaims]
        (collect_research_sources_callback [exEventClaims]
          ⟨[], []⟩)).sources.lookup "src-1" = some rec2 ∧
      recClaims rec2 = recClaims exRec1 ++ recClaims exRec1 ∧
      (∀ k, k ≠ "supported_claims" → rec2.lookup k = exRec1.lookup k) :=
  (C9_theorem [exEventClaims]).2.2 "src-1" exRec1 rfl

/-! ### Claim C2 -/

/-- C2 counterexample: with max_iterations = 2 and grade "insufficient",
on pass 2 the persisted counter becomes 2 (it has reached
max_iterations) yet the checker yields a continue event, not ESCALATE —
the circuit breaker compares the pre-increment value. -/
theorem C2_counterexample :
    checkerStep 2 ⟨some 1, some exInsuffVerdict⟩ =
      CheckerResult.yield 2 false false ∧
    (checkerStep 2 ⟨some 1, some exInsuffVerdict⟩).newCount = 2 ∧
    (checkerStep 2 ⟨some 1, some exInsuffVerdict⟩).escalates = false := by
  decide

/-- C2 (amended): the persisted counter is incremented exactly once per
pass, before the decision is evaluated, but the circuit breaker compares
the pre-increment value: ESCALATE is forced (regardless of the verdict)
exactly when the pre-increment counter has already reached
max_iterations. With max_iterations = 2 and grade "insufficient" on
every pass, the checker yields continue on passes 1 and 2 and forces
ESCALATE only on pass 3. -/
theorem C2_theorem (maxIter : Nat) (st : CheckerState) :
    (checkerStep maxIter st).newCount = st.loop_iteration_count.getD 0 + 1 ∧
    (maxIter ≤ st.loop_iteration_count.getD 0 →
      checkerStep maxIter st =
        CheckerResult.yield (st.loop_iteration_count.getD 0 + 1) false true) ∧
    checkerStep 2 ⟨none, some exInsuffVerdict⟩ =
      CheckerResult.yield 1 false false ∧
    checkerStep 2 ⟨some 1, some exInsuffVerdict⟩ =
      CheckerResult.yield 2 false false ∧
    checkerStep 2 ⟨some 2, some exInsuffVerdict⟩ =
      CheckerResult.yield 3 false true := by
  refine ⟨?_, ?_, by decide, by decide, by decide⟩
  · unfold checkerStep
    by_cases hb : maxIter ≤ st.loop_iteration_count.getD 0
    · simp [hb, CheckerResult.newCount]
    · simp only [if_neg hb]
      cases st.sales_research_evaluation with
      | none => rfl
      | some ev =>
        by_cases hf : ev.falsy
        · simp [hf, CheckerResult.newCount]
        · cases ev with
          | vstr s => simp [hf, CheckerResult.newCount]
          | vdict kvs =>
            simp only [hf, Bool.false_eq_true, if_false]
            by_cases h1 : kvs.lookup "grade" = some (PyPrim.pstr "comprehensive") ∨
                kvs.lookup "grade" = some (PyPrim.pstr "sales_ready")
            · simp [h1, CheckerResult.newCount]
            · simp only [h1, if_false]
              by_cases h2 : kvs.lookup "grade" = some (PyPrim.pstr "needs_improvement")
              · by_cases h3 : 2 ≤ st.loop_iteration_count.getD 0 <;>
                  simp [h2, h3, CheckerResult.newCount]
              · simp [h2, CheckerResult.newCount]
  · intro hb
    simp [checkerStep, hb]

/-- C2 witness: the amended statement evaluated at max_iterations = 2 on
a pass whose pre-increment counter is 2. -/
theorem C2_witness :
    (checkerStep 2 ⟨some 2, some exInsuffVerdict⟩).newCount =
      ((⟨some 2, some exInsuffVerdict⟩ :
        CheckerState).loop_iteration_count.getD 0) + 1 ∧
    checkerStep 2 ⟨some 2, some exInsuffVerdict⟩ =
      CheckerResult.yield
        (((⟨some 2, some exInsuffVerdict⟩ :
          CheckerState).loop_iteration_count.getD 0) + 1) false true :=
  ⟨(C2_theorem 2 ⟨some 2, some exInsuffVerdict⟩).1,
   (C2_theorem 2 ⟨some 2, some exInsuffVerdict⟩).2.1 (by decide)⟩

/-! ### Claim C4 -/

/-- C4 counterexample: a present but non-dict verdict (e.g. a raw
string left unparsed in state) makes the controller raise an uncaught
AttributeError at `evaluation_result.get("grade")` — there is no
try/except in `_run_async_impl`, so the claim's "never a crash" fails. -/
theorem C4_counterexample :
    checkerStep 5 ⟨some 0, some (EvalVal.vstr "not a dict")⟩ =
      CheckerResult.exn 1 "AttributeError: object has no attribute get" := by
  decide

/-- C4 (amended): a missing verdict, or a present falsy one, always
yields ESCALATE — never REFINE — with a warning logged whenever the
circuit breaker has not already fired; but a present, non-falsy,
non-dict verdict raises an uncaught exception: the controller has no
exception handling around its state inspection. -/
theorem C4_theorem (maxIter : Nat) (st : CheckerState) :
    (st.sales_research_evaluation = none →
      (checkerStep maxIter st).escalates = true ∧
      (st.loop_iteration_count.getD 0 < maxIter →
        checkerStep maxIter st =
          CheckerResult.yield (st.loop_iteration_count.getD 0 + 1) true true)) ∧
    (∀ ev, st.sales_research_evaluation = some ev → ev.falsy →
      (checkerStep maxIter st).escalates = true ∧
      (st.loop_iteration_count.getD 0 < maxIter →
        checkerStep maxIter st =
          CheckerResult.yield (st.loop_iteration_count.getD 0 + 1) true true)) ∧
    (∀ s, st.sales_research_evaluation = some (EvalVal.vstr s) →
      ¬(EvalVal.vstr s).falsy → st.loop_iteration_count.getD 0 < maxIter →
      checkerStep maxIter st = CheckerResult.exn
        (st.loop_iteration_count.getD 0 + 1)
        "AttributeError: object has no attribute get") := by
  refine ⟨?_, ?_, ?_⟩
  · intro hev
    by_cases hb : maxIter ≤ st.loop_iteration_count.getD 0
    · exact ⟨by simp [checkerStep, hb, CheckerResult.escalates],
        fun h => absurd hb (by omega)⟩
    · constructor
      · simp [checkerStep, hb, hev, CheckerResult.escalates]
      · intro _
        simp [checkerStep, hb, hev]
  · intro ev hev hf
    by_cases hb : maxIter ≤ st.loop_iteration_count.getD 0
    · exact ⟨by simp [checkerStep, hb, CheckerResult.escalates],
        fun h => absurd hb (by omega)⟩
    · constructor
      · simp [checkerStep, hb, hev, hf, CheckerResult.escalates]
      · intro _
        simp [checkerStep, hb, hev, hf]
  · intro s hev hf hb
    simp only [checkerStep, hev]
    rw [if_neg (by omega)]
    simp [hf]

/-- C4 witness: the amended statement evaluated on a missing verdict and
on a raw-string verdict. -/
theorem C4_witness :
    ((checkerStep 5 ⟨none, none⟩).escalates = true ∧
      ((⟨none, none⟩ : CheckerState).loop_iteration_count.getD 0 < 5 →
        checkerStep 5 ⟨none, none⟩ = CheckerResult.yield
          ((⟨none, none⟩ : CheckerState).loop_iteration_count.getD 0 + 1)
          true true)) ∧
    checkerStep 5 ⟨some 0, some (EvalVal.vstr "bad")⟩ = CheckerResult.exn
      ((⟨some 0, some (EvalVal.vstr "bad")⟩ :
        CheckerState).loop_iteration_count.getD 0 + 1)
      "AttributeError: object has no attribute get" :=
  ⟨(C4_theorem 5 ⟨none, none⟩).1 rfl,
   (C4_theorem 5 ⟨some 0, some (EvalVal.vstr "bad")⟩).2.2 "bad" rfl
     (by decide) (by decide)⟩

/-! ### Claim C10 -/

/-- C10: a present, non-empty verdict dict whose grade is anything other
than "comprehensive", "sales_ready" or "needs_improvement" — including
"pass", "fail" or the empty string — falls through to the final else
branch: the checker yields a plain continue event with no escalation
(provided the circuit breaker has not fired). -/
theorem C10_theorem (maxIter : Nat) (st : CheckerState)
    (kvs : List (String × PyPrim)) (g : PyPrim)
    (hev : st.sales_research_evaluation = some (EvalVal.vdict kvs))
    (hne : kvs ≠ [])
    (hg : kvs.lookup "grade" = some g)
    (h1 : g ≠ PyPrim.pstr "comprehensive")
    (h2 : g ≠ PyPrim.pstr "sales_ready")
    (h3 : g ≠ PyPrim.pstr "needs_improvement")
    (hb : st.loop_iteration_count.getD 0 < maxIter) :
    checkerStep maxIter st =
      CheckerResult.yield (st.loop_iteration_count.getD 0 + 1) false false := by
  simp only [checkerStep, hev]
  rw [if_neg (by omega)]
  have hfalsy : (EvalVal.vdict kvs).falsy = false := by
    simp [EvalVal.falsy, hne]
  simp only [hfalsy, Bool.false_eq_true, if_false, hg]
  rw [if_neg (by simp [h1, h2]), if_neg (by simp [h3])]

/-- C10 witness: grade "pass" on the first pass under max_iterations 3
yields a continue event. -/
theorem C10_witness :
    checkerStep 3 ⟨some 0, some (EvalVal.vdict [("grade", PyPrim.pstr "pass")])⟩ =
      CheckerResult.yield
        ((⟨some 0, some (EvalVal.vdict [("grade", PyPrim.pstr "pass")])⟩ :
          CheckerState).loop_iteration_count.getD 0 + 1) false false :=
  C10_theorem 3 _ [("grade", PyPrim.pstr "pass")] (PyPrim.pstr "pass") rfl
    (by decide) (by decide) (by decide) (by decide) (by decide) (by decide)

/-! ### Claim C8 -/

/-- C8: update_project_report raises a ValueError for a report_type
outside the allow-list, and for an unset (or empty) MONGO_DB_CONNECTOR,
in both cases before performing any database write; the error is
returned to the caller, never swallowed. -/
theorem C8_theorem (mongo_env : Option String) (db : List String)
    (project_id report report_type html_report : String) :
    (report_type ∉ allowed_fields →
      update_project_report mongo_env db project_id report report_type
        html_report = ([], Except.error "Invalid report_type")) ∧
    (report_type ∈ allowed_fields → (mongo_env.getD "").isEmpty →
      update_project_report mongo_env db project_id report report_type
        html_report =
        ([], Except.error
          "MONGO_DB_CONNECTOR environment variable is not set.")) := by
  constructor
  · intro h
    simp [update_project_report, h]
  · intro h1 h2
    simp [update_project_report, h1, h2]

/-- C8 witness: both validation failures evaluated on concrete inputs. -/
theorem C8_witness :
    update_project_report (some "mongodb://h") ["p1"] "p1" "text"
      "bogus_field" "" = ([], Except.error "Invalid report_type") ∧
    update_project_report none ["p1"] "p1" "text" "market_context" "" =
      ([], Except.error
        "MONGO_DB_CONNECTOR environment variable is not set.") :=
  ⟨(C8_theorem (some "mongodb://h") ["p1"] "p1" "text" "bogus_field" "").1
     (by decide),
   (C8_theorem none ["p1"] "p1" "text" "market_context" "").2
     (by decide) (by decide)⟩

/-- C5 (corrected): `citation_replacement_callback` keeps every known
source (no MAX_REFERENCES truncation exists in the code), orders them
lexicographically by short id (Python `sorted`, not by numeric suffix),
assigns 1-based indices in that order with the k-th References entry
carrying index k+1 for the k-th sorted id, and rewrites every marker of
a known source to the link with that id's assigned index. -/
theorem C5_theorem (sources : List (String × SourceRec))
    (hnodup : (keysOf sources).Nodup) (segs : List ReportSeg)
    (htext : ∀ t, ReportSeg.text t ∈ segs → ∀ c ∈ t.data, c ≠ '<')
    (hcite : ∀ sid, ReportSeg.cite sid ∈ segs → IsSrcSid sid) :
    (shortIdToIndex sources).length = sources.length ∧
    (refEntries sources).length = sources.length ∧
    (∀ k sid, (sortedShortIds sources).get? k = some sid →
      (shortIdToIndex sources).lookup sid = some (k + 1) ∧
      (refEntries sources).get? k =
        some (refEntry (k + 1) ((sources.lookup sid).getD []))) ∧
    citation_replacement_callback (reportOf segs) sources =
      (List.asString (wsCleanAux []
          (substReport (shortIdToIndex sources) segs).data) ++
        referencesBlock sources,
       substWarnings (shortIdToIndex sources) segs) ∧
    (∀ sid k, (shortIdToIndex sources).lookup sid = some k →
      ReportSeg.subst (shortIdToIndex sources) (ReportSeg.cite sid) =
        citeLink k) := by
  refine ⟨?_, ?_, ?_, ?_, ?_⟩
  · simp [shortIdToIndex, sortedShortIds, keysOf]
  · simp [refEntries, sortedShortIds, keysOf]
  · intro k sid hk
    constructor
    · have := lookup_enum_map (sortedShortIds_nodup hnodup) 0 k sid hk
      simpa using this
    · unfold refEntries
      rw [List.get?_map]
      have henum : (sortedShortIds sources).enum.get? k =
          ((sortedShortIds sources).get? k).map fun a => (k, a) := by
        simp [List.enum, List.enumFrom_get?]
      rw [henum, hk]
      rfl
  · have hs := reSubCite_structured (shortIdToIndex sources) segs htext hcite
    show (List.asString (wsCleanAux []
        (reSubCite (shortIdToIndex sources) (reportOf segs).data).1) ++
        referencesBlock sources,
      (reSubCite (shortIdToIndex sources) (reportOf segs).data).2) = _
    rw [hs]
  · intro sid k h
    simp [ReportSeg.subst, h]

/-- C5 counterexample: with sixteen sources `src-1` … `src-16` the index
map keeps all sixteen entries (the claimed MAX_REFERENCES = 15 cap does
not exist), and `src-2` receives index 9 — its position in the
lexicographic order of the ids — not the index 2 that numeric-suffix
ordering would give. -/
theorem C5_counterexample :
    (shortIdToIndex exSources16).length = 16 ∧ ¬(16 ≤ 15) ∧
    (shortIdToIndex exSources16).lookup "src-2" = some 9 ∧
    (shortIdToIndex exSources16).lookup "src-2" ≠ some 2 := by
  refine ⟨by decide, by decide, by decide, by decide⟩

theorem C5_witness :
    (keysOf exRefSources).Nodup ∧
    (shortIdToIndex exRefSources).lookup "src-2" = some 2 ∧
    citation_replacement_callback
        (reportOf [ReportSeg.text "A ", ReportSeg.cite "src-2",
          ReportSeg.text "."]) exRefSources =
      (List.asString (wsCleanAux []
          (substReport (shortIdToIndex exRefSources)
            [ReportSeg.text "A ", ReportSeg.cite "src-2",
              ReportSeg.text "."]).data) ++
        referencesBlock exRefSources,
       substWarnings (shortIdToIndex exRefSources)
         [ReportSeg.text "A ", ReportSeg.cite "src-2",
           ReportSeg.text "."]) := by
  have h := C5_theorem exRefSources (by decide)
    [ReportSeg.text "A ", ReportSeg.cite "src-2", ReportSeg.text "."]
    (by
      intro t ht
      simp only [List.mem_cons, List.not_mem_nil, or_false] at ht
      rcases ht with h | h | h
      · injection h with h
        subst h
        decide
      · exact ReportSeg.noConfusion h
      · injection h with h
        subst h
        decide)
    (by
      intro sid hs
      simp only [List.mem_cons, List.not_mem_nil, or_false] at hs
      rcases hs with h | h | h
      · exact ReportSeg.noConfusion h
      · injection h with h
        subst h
        exact ⟨['2'], by decide, by decide, rfl⟩
      · exact ReportSeg.noConfusion h)
  exact ⟨by decide, (h.2.2.1 1 "src-2" (by decide)).1, h.2.2.2.1⟩

set_option maxRecDepth 10000 in
/-- C6 (confirmed): a marker whose short id is unknown is replaced by the
empty string and its id is recorded as a warning, never left in the
output and never a hard failure; the cleanup pass never leaves
whitespace immediately before one of `.`, `,`, `;`, `:`; and on the
claim's example report with only `src-1`/`src-2` known, the `src-3` tag
is removed, no space precedes the period, `src-3` is warned, and `[3]`
appears nowhere in the output. -/
theorem C6_theorem (sources : List (String × SourceRec))
    (segs : List ReportSeg)
    (htext : ∀ t, ReportSeg.text t ∈ segs → ∀ c ∈ t.data, c ≠ '<')
    (hcite : ∀ sid, ReportSeg.cite sid ∈ segs → IsSrcSid sid) :
    (∀ sid, (shortIdToIndex sources).lookup sid = none →
      ReportSeg.subst (shortIdToIndex sources) (ReportSeg.cite sid) = "") ∧
    (citation_replacement_callback (reportOf segs) sources).2 =
      substWarnings (shortIdToIndex sources) segs ∧
    (∀ sid, ReportSeg.cite sid ∈ segs →
      (shortIdToIndex sources).lookup sid = none →
      sid ∈ (citation_replacement_callback (reportOf segs) sources).2) ∧
    (∀ l : List Char, List.Chain'
      (fun a b => pyWs a = true → punctCCS b = false) (wsCleanAux [] l)) ∧
    (citation_replacement_callback
        "Revenue grew 10%<cite source=\"src-3\" />." exRefSources =
      ("Revenue grew 10%.\n\n## References\n<p id=\"ref1\">[1] <a href=\"https://one.example/a\">Example One</a> (one.example)</p>\n<p id=\"ref2\">[2] <a href=\"https://two.example/b\">Example Two</a> (two.example)</p>\n",
       ["src-3"]) ∧
      containsSeq (citation_replacement_callback
        "Revenue grew 10%<cite source=\"src-3\" />." exRefSources).1.data
        "[3]".data = false) := by
  have hs := reSubCite_structured (shortIdToIndex sources) segs htext hcite
  have h2 : (citation_replacement_callback (reportOf segs) sources).2 =
      substWarnings (shortIdToIndex sources) segs := by
    show (reSubCite (shortIdToIndex sources) (reportOf segs).data).2 = _
    rw [hs]
  refine ⟨?_, h2, ?_, ?_, by decide, by decide⟩
  · intro sid h
    simp [ReportSeg.subst, h]
  · intro sid hmem hnone
    rw [h2]
    exact List.mem_filterMap.mpr ⟨ReportSeg.cite sid, hmem, by simp [hnone]⟩
  · intro l
    exact wsCleanAux_chain l [] fun c hc => absurd hc (List.not_mem_nil c)

set_option maxRecDepth 10000 in
theorem C6_witness :
    citation_replacement_callback
        "Revenue grew 10%<cite source=\"src-3\" />." exRefSources =
      ("Revenue grew 10%.\n\n## References\n<p id=\"ref1\">[1] <a href=\"https://one.example/a\">Example One</a> (one.example)</p>\n<p id=\"ref2\">[2] <a href=\"https://two.example/b\">Example Two</a> (two.example)</p>\n",
       ["src-3"]) ∧
    "src-3" ∈ (citation_replacement_callback
      (reportOf [ReportSeg.text "Revenue grew 10%", ReportSeg.cite "src-3",
        ReportSeg.text "."]) exRefSources).2 := by
  have h := C6_theorem exRefSources
    [ReportSeg.text "Revenue grew 10%", ReportSeg.cite "src-3",
      ReportSeg.text "."]
    (by
      intro t ht
      simp only [List.mem_cons, List.not_mem_nil, or_false] at ht
      rcases ht with h | h | h
      · injection h with h
        subst h
        decide
      · exact ReportSeg.noConfusion h
      · injection h with h
        subst h
        decide)
    (by
      intro sid hs
      simp only [List.mem_cons, List.not_mem_nil, or_false] at hs
      rcases hs with h | h | h
      · exact ReportSeg.noConfusion h
      · injection h with h
        subst h
        exact ⟨['3'], by decide, by decide, rfl⟩
      · exact ReportSeg.noConfusion h)
  exact ⟨h.2.2.2.2.1, h.2.2.1 "src-3" (by decide) (by decide)⟩

end OrgResearch
